import Mathlib

set_option maxRecDepth 8192

namespace Grc

/-- Characters matched by the JavaScript regex class backslash-s (whitespace),
given by their code points. -/
def jsWsCodes : List Nat :=
  [9, 10, 11, 12, 13, 32, 160, 5760, 8192, 8193, 8194, 8195, 8196, 8197,
   8198, 8199, 8200, 8201, 8202, 8232, 8233, 8239, 8287, 12288, 65279]

def jsWs (c : Char) : Bool := jsWsCodes.contains c.toNat

abbrev LC := List Char

/-- Substring test, the semantics of JavaScript String.prototype.includes. -/
def containsSub : LC → LC → Bool
  | [], pat => pat.isEmpty
  | c :: cs, pat => List.isPrefixOf pat (c :: cs) || containsSub cs pat

def jsIncludes (s sub : String) : Bool := containsSub s.data sub.data

/-- JavaScript String.prototype.split with a single-character separator. -/
def splitChar (sep : Char) : LC → List LC
  | [] => [[]]
  | c :: cs =>
    if c = sep then [] :: splitChar sep cs
    else
      match splitChar sep cs with
      | [] => [[c]]
      | p :: ps => (c :: p) :: ps

def jsSplit (sep : Char) (s : String) : List String :=
  (splitChar sep s.data).map (fun l => ⟨l⟩)

/-- JavaScript String.prototype.trim on character lists. -/
def trimChars (s : LC) : LC :=
  ((s.dropWhile jsWs).reverse.dropWhile jsWs).reverse

def jsTrim (s : String) : String := ⟨trimChars s.data⟩

/-- JavaScript toUpperCase, modelled for the ASCII range. -/
def jsToUpper (s : String) : String := ⟨s.data.map Char.toUpper⟩

/-- JavaScript toLowerCase, modelled for the ASCII range. -/
def jsToLower (s : String) : String := ⟨s.data.map Char.toLower⟩

/-- JavaScript String.prototype.substring starting at 0: the first n characters. -/
def jsSubstring0 (s : String) (n : Nat) : String := ⟨s.data.take n⟩

/-- JavaScript Array.prototype.slice with a negative index: the last n elements. -/
def jsSliceLast {α : Type} (n : Nat) (l : List α) : List α :=
  l.drop (l.length - n)

/-- JavaScript falsy-or on optional strings: a || b where an absent or empty
string falls through to b. -/
def jsOrStr (a b : Option String) : String :=
  match a with
  | some s => if s.isEmpty then (b.getD "") else s
  | none => b.getD ""

/-- JavaScript falsy-or on optional numbers: a || b where an absent or zero
number falls through to b. -/
def jsOrNat (a b : Option Nat) : Nat :=
  match a with
  | some n => if n = 0 then b.getD 0 else n
  | none => b.getD 0

def apostropheChar : Char := Char.ofNat 39

def apostrophe : String := ⟨[apostropheChar]⟩

/-! ## Directive parser (src/src/config.js second document, the tool parser)

The directive grammar is the regex `<tool\s+([^>]+?)\/>` scanned globally, and
attributes inside the captured group are extracted with the regex
`(\w+)=["']([^"']+)["']`. Both are embedded below at the character level with
the exact leftmost-match and backtracking semantics of the JavaScript engine
for these particular patterns. -/

/-- Index of the first greater-than character, if any. -/
def firstGtIdx : LC → Option Nat
  | [] => none
  | c :: cs => if c = '>' then some 0 else (firstGtIdx cs).map Nat.succ

/-- Attempt to match the regex `<tool\s+([^>]+?)\/>` at the head of the list.
Returns the middle part (whitespace-plus-group, the part between the literal
marker and the closing slash-gt) and the total length of the match.

For this regex a match at a position exists exactly when the text starts with
the literal marker, the next character is whitespace, and the first
greater-than character afterwards is preceded by a slash with at least one
whitespace character and one further character in between. -/
def toolMarker : LC := "<tool".data

def toolMatch (s : LC) : Option (LC × Nat) :=
  if List.isPrefixOf toolMarker s then
    match s.drop 5 with
    | c :: rest =>
      if jsWs c then
        match firstGtIdx rest with
        | some p =>
          if 2 ≤ p ∧ rest.get? (p - 1) = some '/' then
            some (c :: rest.take (p - 1), p + 7)
          else none
        | none => none
      else none
    | [] => none
  else none

/-- The captured group of a successful tool-tag match: the regex places the
greedy whitespace run first, so the group is the middle stripped of its
leading whitespace — except that when the middle is all whitespace the
backtracking leaves exactly its last character in the group. -/
def attrStrOf (m : LC) : LC :=
  let t := m.dropWhile jsWs
  if t.isEmpty then m.drop (m.length - 1) else t

def isWordChar (c : Char) : Bool := c.isAlphanum || c = '_'

def isQuoteChar (c : Char) : Bool := c = '"' || c = apostropheChar

/-- After the word run of a key, the attribute regex requires an equals sign,
an opening quote, a nonempty run of non-quote characters and a closing quote
(either quote character — no requirement that it match the opening one). -/
def attrTail (k : LC) : LC → Option ((LC × LC) × LC)
  | '=' :: q :: r3 =>
    if isQuoteChar q then
      let v := r3.takeWhile (fun c => !isQuoteChar c)
      if v.isEmpty then none
      else
        match r3.dropWhile (fun c => !isQuoteChar c) with
        | [] => none
        | _ :: r5 => some ((k, v), r5)
    else none
  | _ => none

/-- Attempt to match the attribute regex `(\w+)=["']([^"']+)["']` at the head
of the list: a nonempty greedy word run, then the rest of the pattern.
Returns the key, the value and the remainder after the match. -/
def attrMatchAt (s : LC) : Option ((LC × LC) × LC) :=
  if (s.takeWhile isWordChar).isEmpty then none
  else attrTail (s.takeWhile isWordChar) (s.dropWhile isWordChar)

/-- Global scan of the attribute regex over the captured group, fuelled by the
length of the input (each step consumes at least one character). -/
def scanAttrsF : Nat → LC → List (LC × LC)
  | 0, _ => []
  | _ + 1, [] => []
  | f + 1, c :: cs =>
    match attrMatchAt (c :: cs) with
    | some (kv, rest) => kv :: scanAttrsF f rest
    | none => scanAttrsF f cs

def scanAttrs (s : LC) : List (LC × LC) := scanAttrsF s.length s

/-- JavaScript object-property assignment: overwrite in place if the key is
present, else append. -/
def objInsert : List (LC × LC) → LC → LC → List (LC × LC)
  | [], k, v => [(k, v)]
  | (k0, v0) :: rest, k, v =>
    if k0 = k then (k0, v) :: rest else (k0, v0) :: objInsert rest k v

/-- parseAttributes from the tool parser: scan the attribute regex and build
the attribute object. -/
def parseAttributes (s : LC) : List (LC × LC) :=
  (scanAttrs s).foldl (fun o kv => objInsert o kv.1 kv.2) []

def lookupAttr (o : List (LC × LC)) (k : LC) : Option LC :=
  match o with
  | [] => none
  | (k0, v0) :: rest => if k0 = k then some v0 else lookupAttr rest k

def nameKey : LC := "name".data

/-- A parsed tool invocation is the raw attribute object (the source pushes
the whole object, name attribute included). -/
abbrev Cmd := List (LC × LC)

/-- parseToolCommands from the tool parser, fuelled by the input length: scan
for tool tags left to right, parse the attributes of each, and keep those
whose name attribute is present (truthy). -/
def parseToolsF : Nat → LC → List Cmd
  | 0, _ => []
  | _ + 1, [] => []
  | f + 1, c :: cs =>
    match toolMatch (c :: cs) with
    | some (m, n) =>
      let tool := parseAttributes (attrStrOf m)
      let rest := (c :: cs).drop n
      if (lookupAttr tool nameKey).isSome then tool :: parseToolsF f rest
      else parseToolsF f rest
    | none => parseToolsF f cs

def parseToolCommands (s : String) : List Cmd := parseToolsF s.data.length s.data

/-- The scan of removeToolCommands: delete every match of the tool-tag regex,
fuelled by the input length. -/
def stripAuxF : Nat → LC → LC
  | 0, s => s
  | _ + 1, [] => []
  | f + 1, c :: cs =>
    match toolMatch (c :: cs) with
    | some (_, n) => stripAuxF f ((c :: cs).drop n)
    | none => c :: stripAuxF f cs

/-- removeToolCommands from the tool parser: replace every tool tag with the
empty string, then trim. -/
def removeToolCommands (s : String) : String :=
  ⟨trimChars (stripAuxF s.data.length s.data)⟩

/-- hasToolCommands from the tool parser. -/
def hasToolCommands (s : String) : Bool := (toolFirst s.data).isSome
where
  toolFirst : LC → Option (LC × Nat)
    | [] => none
    | c :: cs => match toolMatch (c :: cs) with
      | some r => some r
      | none => toolFirst cs

/-! ## Tool results and tool providers (src/src/tools.js)

Executors return heterogeneous records; the structure below has an optional
field for every property any executor produces. The file system and the shell
are external oracles passed in as functions (content or error message keyed by
the resolved path, respectively stdout or error keyed by the command line). -/

structure ToolResult where
  success : Bool
  error : Option String := none
  content : Option String := none
  lineCount : Option Nat := none
  message : Option String := none
  stdout : Option String := none
  stderr : Option String := none
  combined : Option String := none
  files : Option (List String) := none
  count : Option Nat := none
  «matches» : Option String := none
  fullFileLines : Option Nat := none
  limitedTo : Option Nat := none
deriving DecidableEq

abbrev Args := List (String × String)

def argsLookup (args : Args) (k : String) : Option String :=
  match args with
  | [] => none
  | (k0, v0) :: rest => if k0 = k then some v0 else argsLookup rest k

/-- Rendering of a possibly-absent value in a JavaScript template literal. -/
def optNatStr (o : Option Nat) : String :=
  match o with
  | some n => toString n
  | none => "undefined"

/-- File system oracle: content of the file at the (resolved) path, or the
message of the read error. -/
abbrev FileSys := String → Except String String

/-- executeRead from tools.js: read the file, number its lines
(one-based index, tab, line), or catch the error into a Failure. -/
def executeRead (fs : FileSys) (args : Args) : ToolResult :=
  let fp := (argsLookup args "file_path").getD ""
  match fs fp with
  | Except.ok content =>
    let lines := jsSplit '\n' content
    { success := true
      content := some (String.intercalate "\n"
        (lines.mapIdx (fun i l => toString (i + 1) ++ "\t" ++ l)))
      lineCount := some lines.length }
  | Except.error msg =>
    { success := false, error := some ("Failed to read file: " ++ msg) }

/-- Shell oracle: stdout of the command, or the rejection of the promise. -/
abbrev Shell := String → Except String String

/-- The grep command line built by executeGrep. -/
def grepCmd (cwd : String) (args : Args) : String :=
  let searchPath := jsOrStr (argsLookup args "path") (some cwd)
  let base := "grep -rn \"" ++ (argsLookup args "pattern").getD "undefined"
    ++ "\" \"" ++ searchPath ++ "\""
  match argsLookup args "file_type" with
  | some ft => if ft.isEmpty then base else base ++ " --include=\"*." ++ ft ++ "\""
  | none => base

/-- executeGrep from tools.js: run the grep command; a rejected command is
caught into an object with empty stdout, and the function then always returns
a success result whose lineCount counts nonempty lines of stdout. -/
def executeGrep (sh : Shell) (cwd : String) (args : Args) : ToolResult :=
  let stdout := match sh (grepCmd cwd args) with
    | Except.ok out => out
    | Except.error _ => ""
  { success := true
    «matches» := some stdout
    lineCount := some (if stdout.isEmpty then 0
      else ((jsSplit '\n' stdout).filter (fun l => !l.isEmpty)).length) }

/-! ## Summarizer (src/src/summarizer.js) -/

/-- Approximate JSON.stringify for a tool result, used only in the default
branch of summarizeToolResult: defined fields are printed in declaration
order. -/
def jsonStringifyResult (r : ToolResult) : String :=
  let field (k : String) (v : Option String) : List String :=
    match v with
    | some s => [String.join ["\"", k, "\":\"", s, "\""]]
    | none => []
  let fieldN (k : String) (v : Option Nat) : List String :=
    match v with
    | some n => [String.join ["\"", k, "\":", toString n]]
    | none => []
  let parts :=
    [String.join ["\"success\":", if r.success then "true" else "false"]]
    ++ field "error" r.error ++ field "content" r.content
    ++ fieldN "lineCount" r.lineCount ++ field "message" r.message
    ++ field "stdout" r.stdout ++ field "stderr" r.stderr
    ++ field "combined" r.combined
    ++ (match r.files with
        | some fs => [String.join ["\"files\":[", String.intercalate "," (fs.map (fun f => String.join ["\"", f, "\""])), "]"]]
        | none => [])
    ++ fieldN "count" r.count ++ field "matches" r.«matches»
    ++ fieldN "fullFileLines" r.fullFileLines ++ fieldN "limitedTo" r.limitedTo
  String.join ["\x7b", String.intercalate "," parts, "\x7d"]

/-- summarizeToolResult from summarizer.js. -/
def summarizeToolResult (toolName : String) (args : Args) (result : ToolResult) : String :=
  if !result.success then "Error: " ++ result.error.getD "undefined"
  else if toolName = "Read" then
    "Read " ++ (argsLookup args "file_path").getD "undefined"
      ++ " (" ++ toString (jsOrNat result.lineCount none) ++ " lines)"
  else if toolName = "Write" then
    "Created/updated " ++ (argsLookup args "file_path").getD "undefined"
  else if toolName = "Edit" then
    "Edited " ++ (argsLookup args "file_path").getD "undefined"
  else if toolName = "Bash" then
    let output := jsOrStr result.combined result.stdout
    let preview : String := ⟨(output.data.take 100).map (fun c => if c = '\n' then ' ' else c)⟩
    "Executed: " ++ (argsLookup args "command").getD "undefined"
      ++ "\nOutput: " ++ preview ++ (if 100 < output.length then "..." else "")
  else if toolName = "Glob" then
    "Found " ++ optNatStr result.count ++ " files matching \""
      ++ (argsLookup args "pattern").getD "undefined" ++ "\""
  else if toolName = "Grep" then
    "Found " ++ toString (jsOrNat result.lineCount none) ++ " matches for \""
      ++ (argsLookup args "pattern").getD "undefined" ++ "\""
  else jsSubstring0 (jsonStringifyResult result) 150

/-- createDetailedSummary from summarizer.js. -/
def createDetailedSummary
    (toolResults : List (String × Args × ToolResult × String)) : String :=
  String.join (toolResults.map (fun tr =>
    let result := tr.2.2.1
    "\n" ++ tr.1 ++ ":\n" ++
    (if result.success then
      match result.content with
      | some content =>
        "  ✓ Success (" ++ toString (jsSplit '\n' content).length ++ " lines)\n"
          ++ "  Preview: " ++ jsSubstring0 content 200 ++ "...\n"
      | none =>
        match result.files with
        | some fs =>
          "  ✓ Found " ++ optNatStr result.count ++ " files\n"
            ++ "  Files: " ++ String.intercalate ", " (fs.take 10) ++ "\n"
        | none =>
          match result.message with
          | some m => "  ✓ " ++ m ++ "\n"
          | none =>
            match result.combined with
            | some c =>
              if c.isEmpty then "  ✓ Success\n"
              else "  ✓ Output: " ++ jsSubstring0 c 200 ++ "...\n"
            | none => "  ✓ Success\n"
    else "  ✗ Error: " ++ result.error.getD "undefined" ++ "\n")))

/-! ## Context manager (src/src/context-manager.js) -/

structure RecentResult where
  tool : String
  success : Bool
  summary : String
deriving DecidableEq

structure Compressed where
  taskGoal : String
  filesFound : List String
  filesRead : List String
  filesFailed : List String
  recentToolResults : List RecentResult
deriving DecidableEq

def initCompressed : Compressed :=
  { taskGoal := "", filesFound := [], filesRead := [], filesFailed := []
    recentToolResults := [] }

/-- Last path component by Windows separator: f.split(backslash).pop(). -/
def winBasename (f : String) : String :=
  ((jsSplit '\\' f).getLast?).getD ""

/-- createCompressedSummary from context-manager.js. On failure the source
reads result.error.substring: every executor sets error on failure, and the
model renders an absent one as the string undefined. -/
def createCompressedSummary (toolName : String) (args : Args) (result : ToolResult) : String :=
  if !result.success then
    "Failed: " ++ jsSubstring0 (result.error.getD "undefined") 50
  else if toolName = "Read" then
    let filename := winBasename ((argsLookup args "file_path").getD "undefined")
    let fullLines := jsOrNat result.fullFileLines result.lineCount
    match result.limitedTo with
    | some l =>
      if l = 0 then "Read " ++ filename ++ " (" ++ toString fullLines ++ " lines)"
      else "Read " ++ filename ++ " (" ++ toString l ++ "/" ++ toString fullLines ++ " lines)"
    | none => "Read " ++ filename ++ " (" ++ toString fullLines ++ " lines)"
  else if toolName = "Bash" then
    let output := jsOrStr result.combined result.stdout
    toString (jsSplit '\n' output).length ++ " items listed"
  else if toolName = "Glob" then
    "Found " ++ optNatStr result.count ++ " files"
  else if toolName = "Grep" then
    toString (jsOrNat result.lineCount none) ++ " matches"
  else "Success"

/-- Filter applied to Bash output lines when refreshing the discovered-file
list. -/
def looksLikeSourceLine (line : String) : Bool :=
  !(jsTrim line).isEmpty &&
    (jsIncludes line ".java" || jsIncludes line ".js" || jsIncludes line ".py"
      || jsIncludes line ".ts" || jsIncludes line ".json" || jsIncludes line ".xml")

/-- updateCompressedContext from context-manager.js: push the result summary
onto the two-entry ring, refresh the discovered-file list on successful Bash
or Glob, and push onto the capped read/failed lists on Read. -/
def updateCompressedContext (s : Compressed) (toolName : String) (args : Args)
    (result : ToolResult) : Compressed :=
  let r1 := s.recentToolResults
    ++ [{ tool := toolName, success := result.success
          summary := createCompressedSummary toolName args result }]
  let s := { s with recentToolResults := if 2 < r1.length then r1.tail else r1 }
  let s :=
    if toolName = "Bash" && result.success then
      let output := jsOrStr result.combined result.stdout
      let files := (jsSplit '\n' output).filter looksLikeSourceLine
      { s with filesFound := files.take 15 }
    else if toolName = "Glob" && result.success then
      match result.files with
      | some fs => { s with filesFound := fs.take 15 }
      | none => s
    else s
  if toolName = "Read" then
    if result.success then
      let l := s.filesRead ++ [(argsLookup args "file_path").getD "undefined"]
      { s with filesRead := if 10 < l.length then l.tail else l }
    else
      let l := s.filesFailed ++ [(argsLookup args "file_path").getD "undefined"]
      { s with filesFailed := if 5 < l.length then l.tail else l }
  else s

def failedHeader : String := "\nFailed (don" ++ apostrophe ++ "t retry):\n"

/-- getCompressedContext from context-manager.js: the bounded view serialized
for the light model. -/
def getCompressedContext (s : Compressed) : String :=
  let ctx := "Task: " ++ s.taskGoal ++ "\n\n"
  let ctx := ctx ++ "Files in Dir (" ++ toString s.filesFound.length
    ++ " total, showing 10):\n"
  let ctx := ctx ++ String.join ((s.filesFound.take 10).map (fun f => f ++ "\n"))
  let ctx :=
    if 0 < s.filesRead.length then
      ctx ++ "\nRead (last 5):\n"
        ++ String.join ((jsSliceLast 5 s.filesRead).map (fun f => winBasename f ++ "\n"))
    else ctx
  let ctx :=
    if 0 < s.filesFailed.length then
      ctx ++ failedHeader
        ++ String.join ((jsSliceLast 3 s.filesFailed).map (fun f => winBasename f ++ "\n"))
    else ctx
  ctx ++ "\nLast 2 Results:\n"
    ++ String.join (s.recentToolResults.map (fun tr =>
        (if tr.success then "✓" else "✗") ++ " " ++ tr.tool ++ ": " ++ tr.summary ++ "\n"))

structure SessionItem where
  typ : String
  content : String
deriving DecidableEq

structure ToolExecution where
  tool : String
  args : Args
  result : ToolResult
  summary : String
deriving DecidableEq

structure CurrentCtx where
  userMessage : String
  toolExecutions : List ToolExecution
deriving DecidableEq

/-- The three-layer context manager state. -/
structure CM where
  sessionContext : List SessionItem
  currentContext : CurrentCtx
  compressedContext : Compressed
deriving DecidableEq

def CM.start : CM :=
  { sessionContext := []
    currentContext := { userMessage := "", toolExecutions := [] }
    compressedContext := initCompressed }

def addToSessionContext (cm : CM) (typ content : String) : CM :=
  { cm with sessionContext := cm.sessionContext ++ [{ typ := typ, content := content }] }

def addUserMessage (cm : CM) (m : String) : CM := addToSessionContext cm "user" m

def addReasoningResponse (cm : CM) (r : String) : CM :=
  addToSessionContext cm "assistant" r

def startNewRequest (cm : CM) (userMessage : String) : CM :=
  { cm with
    currentContext := { userMessage := userMessage, toolExecutions := [] }
    compressedContext := { cm.compressedContext with taskGoal := userMessage } }

/-- addToolExecution: append to the Turn log and update the compressed view. -/
def addToolExecution (cm : CM) (toolName : String) (args : Args)
    (result : ToolResult) (summary : String) : CM :=
  { cm with
    currentContext := { cm.currentContext with
      toolExecutions := cm.currentContext.toolExecutions
        ++ [{ tool := toolName, args := args, result := result, summary := summary }] }
    compressedContext := updateCompressedContext cm.compressedContext toolName args result }

def getSessionContext (cm : CM) : String :=
  String.join (cm.sessionContext.map (fun item =>
    if item.typ = "user" then "User: " ++ item.content ++ "\n\n"
    else if item.typ = "assistant" then "Assistant: " ++ item.content ++ "\n\n"
    else ""))

def getCurrentContext (cm : CM) : String :=
  "Current Task: " ++ cm.currentContext.userMessage ++ "\n\n"
    ++ "Tool Executions in This Request:\n"
    ++ String.join (cm.currentContext.toolExecutions.map (fun te =>
        if te.result.success then "  ✓ " ++ te.tool ++ ": " ++ te.summary ++ "\n"
        else "  ✗ " ++ te.tool ++ ": " ++ te.result.error.getD "undefined" ++ "\n"))

def getContextForModel (cm : CM) (modelType : String) : String :=
  if modelType = "heavy" then getSessionContext cm ++ "\n" ++ getCurrentContext cm
  else getCompressedContext cm.compressedContext

/-! ## Tier selection policy (src/src/model-selector.js) -/

def complexKeywords : List String :=
  ["implement", "create", "build", "design", "refactor",
   "debug", "fix bug", "optimize", "algorithm",
   "architecture", "system", "complex", "explain why",
   "analyze", "review", "improve", "enhance"]

def simpleKeywords : List String :=
  ["read", "show", "list", "find", "search",
   "what is", "where is", "display", "print",
   "view", "check", "get", "fetch"]

/-- A prior tool call: the name of its function property, or none when the
function property is absent (falsy). -/
abbrev ToolCall := Option String

def hasCodeModification (toolCalls : List ToolCall) : Bool :=
  toolCalls.any (fun tc =>
    match tc with
    | some n => n = "Write" || n = "Edit"
    | none => false)

def onlyReading (toolCalls : List ToolCall) : Bool :=
  toolCalls.all (fun tc =>
    match tc with
    | some n => n = "Read" || n = "Glob" || n = "Grep"
    | none => false)

def hasComplexKeyword (message : String) : Bool :=
  complexKeywords.any (fun k => jsIncludes (jsToLower message) k)

def hasSimpleKeyword (message : String) : Bool :=
  simpleKeywords.any (fun k => jsIncludes (jsToLower message) k)

/-- analyzeTaskComplexity from model-selector.js. -/
def analyzeTaskComplexity (message : String) (toolCalls : List ToolCall) : String :=
  if hasCodeModification toolCalls || hasComplexKeyword message then "complex"
  else if hasSimpleKeyword message || onlyReading toolCalls then "simple"
  else if 200 < message.length || 5 < (jsSplit '\n' message).length then "complex"
  else "simple"

/-! ## Agent orchestration loop (src/unnamed/part_001, processUserMessage)

The while loop of the dual-model processUserMessage is embedded as a step
function on an explicit state. External collaborators are oracles: the tool
providers are a runner function, and the chat provider's outputs arrive as an
input stream (main response plus the checkpoint response consumed on
checkpoint iterations). Terminal console output, spinners, the UI manager and
the persistence sink have no effect on loop state and are not modelled; the
pre-loop planning call consumes no loop state either. -/

abbrev ToolRunner := String → Args → ToolResult

/-- The keys of the toolExecutors registry in tools.js. -/
def knownToolNames : List String := ["Read", "Write", "Edit", "Bash", "Glob", "Grep"]

def cmdName (c : Cmd) : String := ⟨(lookupAttr c nameKey).getD []⟩

/-- The spread-minus-name of a parsed command object, converted to args. -/
def cmdArgs (c : Cmd) : Args :=
  (c.filter (fun kv => !(kv.1 == nameKey))).map (fun kv => (⟨kv.1⟩, ⟨kv.2⟩))

/-- The tool-execution phase of one loop iteration: dispatch each command in
order; a known tool name is executed, summarized, recorded in the context
manager and pushed onto toolResults; an unknown tool name is only reported to
the console and leaves no trace. -/
def execPhase (runner : ToolRunner) : List Cmd → CM → List ToolExecution × CM
  | [], cm => ([], cm)
  | c :: rest, cm =>
    let toolName := cmdName c
    let toolArgs := cmdArgs c
    if knownToolNames.contains toolName then
      let result := runner toolName toolArgs
      let summary := summarizeToolResult toolName toolArgs result
      let cm1 := addToolExecution cm toolName toolArgs result summary
      let next := execPhase runner rest cm1
      ({ tool := toolName, args := toolArgs, result := result, summary := summary } :: next.1,
       next.2)
    else execPhase runner rest cm

def taskCompleteMarker : String := "TASK COMPLETE"

def summaryHeader : String := "## Summary"

def summarySwitchPrompt : String :=
  "Based on all the code you explored, provide a comprehensive summary with:\n- Project type and purpose\n- Key components and their roles\n- Architecture patterns\n- Notable issues or improvements needed"

def stopSwitchPrompt : String :=
  "Based on all the files explored, create a comprehensive codebase summary with:\n- Project type and purpose\n- Architecture and key components\n- Notable patterns or issues\n\nThen say TASK COMPLETE."

def continueExplorationPrompt : String :=
  "Continue exploration based on compressed context."

def heavyResultsPrompt (results : List ToolExecution) : String :=
  "Tool execution results:\n"
    ++ createDetailedSummary (results.map (fun te => (te.tool, te.args, te.result, te.summary)))
    ++ "\n\nBased on these results, what should we do next?"

/-- The default directory-listing directive injected on a first iteration
that parsed no directives. -/
def injectedDirListing (isWin : Bool) : Cmd :=
  [(nameKey, "Bash".data),
   ("command".data, (if isWin then "dir /s /b" else "ls -R").data)]

def isGlobCmd (c : Cmd) : Bool := lookupAttr c nameKey == some "Glob".data

/-- External inputs of one loop iteration: the main model response content
(none models a null content) and the checkpoint response content, read only
on checkpoint iterations. -/
structure LoopInput where
  resp : Option String
  ck : Option String

structure LoopState where
  iter : Nat
  tc : Bool
  ul : Bool
  userMessage : String
  cm : CM
  halted : Bool

/-- Loop state right before the first while-loop check of a Turn: counters
reset, light model active, user message recorded and the Turn state begun. -/
def LoopState.start (userMessage : String) : LoopState :=
  { iter := 0, tc := false, ul := true, userMessage := userMessage
    cm := startNewRequest (addUserMessage CM.start userMessage) userMessage
    halted := false }

def checkpointInterval : Nat := 5

def maxIterations : Nat := 25

/-- The decision part of the loop body, after the response content has been
split into stripped text, completion flag and the (possibly overridden)
directive list. Mirrors part_001 lines 287-405 branch for branch. -/
def loopDecide (runner : ToolRunner) (inp : LoopInput) (text : String)
    (tc1 : Bool) (cmds2 : List Cmd) (s : LoopState) : LoopState :=
  let isFinalSummary := jsIncludes text summaryHeader && cmds2.isEmpty
  if isFinalSummary && s.ul then
    { s with tc := tc1, ul := false, userMessage := summarySwitchPrompt }
  else
    let cm1 := addReasoningResponse s.cm text
    if cmds2.isEmpty then
      if s.ul && !tc1 && decide (3 < s.iter) then
        { s with tc := tc1, cm := cm1, ul := false, userMessage := summarySwitchPrompt }
      else { s with tc := tc1, cm := cm1, halted := true }
    else
      let er := execPhase runner cmds2 cm1
      if s.ul && decide (0 < s.iter) && decide (s.iter % checkpointInterval = 0) then
        match inp.ck with
        | none => { s with tc := tc1, cm := er.2, halted := true }
        | some ck =>
          if jsIncludes (jsToUpper (jsTrim ck)) "STOP" then
            { s with
              tc := tc1
              cm := er.2
              ul := false
              userMessage := stopSwitchPrompt
              iter := s.iter + 1 }
          else
            { s with
              tc := tc1
              cm := er.2
              userMessage := continueExplorationPrompt
              iter := s.iter + 1 }
      else if s.ul then
        { s with
          tc := tc1
          cm := er.2
          userMessage := continueExplorationPrompt
          iter := s.iter + 1 }
      else
        { s with
          tc := tc1
          cm := er.2
          userMessage := heavyResultsPrompt er.1
          iter := s.iter + 1 }

/-- The body of the while loop, entered with a non-null non-empty response
content. Mirrors part_001 lines 256-405: set the completion flag, parse and
strip the response, apply the first-iteration directory-listing injection and
the second-iteration Glob override, then decide. -/
def loopBody (runner : ToolRunner) (isWin : Bool) (inp : LoopInput)
    (content : String) (s : LoopState) : LoopState :=
  let tc1 := s.tc || jsIncludes content taskCompleteMarker
  let cmds0 := parseToolCommands content
  let text := removeToolCommands content
  let cmds1 := if s.iter = 0 && cmds0.isEmpty then [injectedDirListing isWin] else cmds0
  let hasFiles : Bool := decide (0 < s.cm.compressedContext.filesFound.length)
  let cmds2 :=
    if s.iter = 1 && cmds1.any isGlobCmd && !hasFiles then [injectedDirListing isWin]
    else cmds1
  loopDecide runner inp text tc1 cmds2 s

/-- One traversal of the while loop: the loop condition, the null-content and
empty-content break, then the body. A halted state absorbs. -/
def loopStep (runner : ToolRunner) (isWin : Bool) (inp : LoopInput)
    (s : LoopState) : LoopState :=
  if s.halted then s
  else if !(decide (s.iter < maxIterations) && !s.tc) then { s with halted := true }
  else
    match inp.resp with
    | none => { s with halted := true }
    | some content =>
      if content.isEmpty then { s with halted := true }
      else loopBody runner isWin inp content s

/-- Drive the loop for n steps against an input stream. -/
def runLoop (runner : ToolRunner) (isWin : Bool) (inputs : Nat → LoopInput) :
    Nat → LoopState → LoopState
  | 0, s => s
  | n + 1, s =>
    runLoop runner isWin (fun i => inputs (i + 1)) n (loopStep runner isWin (inputs 0) s)

/-! ## Shared helper lemmas -/

theorem cappedPush_length {α : Type} (l : List α) (x : α) (n : Nat) (h : l.length ≤ n) :
    (if n < (l ++ [x]).length then (l ++ [x]).tail else l ++ [x]).length ≤ n := by
  by_cases hc : n < (l ++ [x]).length
  · rw [if_pos hc]; simp; omega
  · rw [if_neg hc]; simp at hc ⊢; omega

def compressedBounded (s : Compressed) : Prop :=
  s.filesFound.length ≤ 15 ∧ s.filesRead.length ≤ 10 ∧
  s.filesFailed.length ≤ 5 ∧ s.recentToolResults.length ≤ 2

theorem updateCompressedContext_bounded (s : Compressed) (t : String) (a : Args)
    (r : ToolResult) (h : compressedBounded s) :
    compressedBounded (updateCompressedContext s t a r) := by
  obtain ⟨h1, h2, h3, h4⟩ := h
  have hrec := cappedPush_length s.recentToolResults
    { tool := t, success := r.success, summary := createCompressedSummary t a r } 2 h4
  have hread := cappedPush_length s.filesRead ((argsLookup a "file_path").getD "undefined") 10 h2
  have hfail := cappedPush_length s.filesFailed ((argsLookup a "file_path").getD "undefined") 5 h3
  unfold updateCompressedContext compressedBounded
  dsimp only
  split
  · split
    · refine ⟨?_, ?_, ?_, ?_⟩ <;> simp_all
    · refine ⟨?_, ?_, ?_, ?_⟩ <;> simp_all
  · split
    · refine ⟨?_, ?_, ?_, ?_⟩ <;> simp_all
    · split
      · split
        · refine ⟨?_, ?_, ?_, ?_⟩ <;> simp_all
        · refine ⟨?_, ?_, ?_, ?_⟩ <;> simp_all
      · refine ⟨?_, ?_, ?_, ?_⟩ <;> simp_all

theorem data_mk (l : LC) : (String.mk l).data = l := rfl

theorem dropWhile_dropWhile (p : Char → Bool) (l : LC) :
    List.dropWhile p (List.dropWhile p l) = List.dropWhile p l := by
  induction l with
  | nil => rfl
  | cons c cs ih =>
    cases hc : p c with
    | true => simp [List.dropWhile_cons, hc, ih]
    | false => simp [List.dropWhile_cons, hc]

theorem dropWhile_append_last (p : Char → Bool) (l : LC) (x : Char) (hx : p x = false) :
    List.dropWhile p (l ++ [x]) = List.dropWhile p l ++ [x] := by
  induction l with
  | nil => simp [List.dropWhile_cons, hx]
  | cons c cs ih =>
    cases hc : p c with
    | true => simp [List.dropWhile_cons, hc, ih]
    | false => simp [List.dropWhile_cons, hc]

theorem dropWhile_head_false (p : Char → Bool) :
    ∀ (l : LC) (x : Char) (xs : LC), List.dropWhile p l = x :: xs → p x = false := by
  intro l
  induction l with
  | nil => intro x xs h; simp [List.dropWhile] at h
  | cons c cs ih =>
    intro x xs h
    cases hc : p c with
    | true => rw [List.dropWhile_cons, if_pos (by rw [hc])] at h; exact ih _ _ h
    | false =>
      rw [List.dropWhile_cons, if_neg (by rw [hc]; exact Bool.false_ne_true)] at h
      injection h with h1 _
      rw [← h1]; exact hc

theorem trimChars_idem (s : LC) : trimChars (trimChars s) = trimChars s := by
  cases hw : List.dropWhile jsWs s with
  | nil =>
    have : trimChars s = [] := by unfold trimChars; rw [hw]; rfl
    rw [this]; rfl
  | cons x xs =>
    have hx : jsWs x = false := dropWhile_head_false jsWs s x xs hw
    have hu : trimChars s = x :: (List.dropWhile jsWs xs.reverse).reverse := by
      unfold trimChars
      rw [hw]
      rw [show (x :: xs).reverse = xs.reverse ++ [x] by simp]
      rw [dropWhile_append_last jsWs xs.reverse x hx]
      simp
    rw [hu]
    unfold trimChars
    rw [List.dropWhile_cons, if_neg (by rw [hx]; exact Bool.false_ne_true)]
    rw [show (x :: (List.dropWhile jsWs xs.reverse).reverse).reverse
        = List.dropWhile jsWs xs.reverse ++ [x] by simp]
    rw [dropWhile_append_last jsWs _ x hx, dropWhile_dropWhile]
    simp

theorem toolMatch_marker (s : LC) (r : LC × Nat) (h : toolMatch s = some r) :
    List.isPrefixOf toolMarker s = true := by
  unfold toolMatch at h
  by_cases hp : List.isPrefixOf toolMarker s = true
  · exact hp
  · rw [if_neg hp] at h; cases h

theorem isPrefixOf_containsSub (p s : LC) (h : List.isPrefixOf p s = true) :
    containsSub s p = true := by
  cases s with
  | nil =>
    cases p with
    | nil => rfl
    | cons a as => simp [List.isPrefixOf] at h
  | cons c cs => simp [containsSub, h]

theorem stripAuxF_no_marker (f : Nat) :
    ∀ s : LC, containsSub s toolMarker = false → stripAuxF f s = s := by
  induction f with
  | zero => intro s _; rfl
  | succ f ih =>
    intro s h
    cases s with
    | nil => rfl
    | cons c cs =>
      have hnone : toolMatch (c :: cs) = none := by
        cases htm : toolMatch (c :: cs) with
        | none => rfl
        | some r =>
          have hc := isPrefixOf_containsSub _ _ (toolMatch_marker _ _ htm)
          rw [h] at hc; cases hc
      have hcs : containsSub cs toolMarker = false := by
        have h2 := h
        simp only [containsSub, Bool.or_eq_false_iff] at h2
        exact h2.2
      simp [stripAuxF, hnone, ih cs hcs]

/-! ## Claim theorems -/

/-- One recordToolExecution event: tool name, arguments and the tool result
(the compressed layer derives its own summary). -/
structure ToolEvent where
  tool : String
  args : Args
  result : ToolResult

def applyEvents (es : List ToolEvent) (s : Compressed) : Compressed :=
  es.foldl (fun acc e => updateCompressedContext acc e.tool e.args e.result) s

/-- C1: for any sequence of recordToolExecution calls, the CompressedView
stays bounded: at most 15 discovered files, 10 successfully-read paths,
5 failed-read paths and 2 recent tool results; the capped lists evict from
the front (oldest first) as updateCompressedContext shows. -/
theorem claim_C1_compressed_view_bounded (es : List ToolEvent) :
    (applyEvents es initCompressed).filesFound.length ≤ 15 ∧
    (applyEvents es initCompressed).filesRead.length ≤ 10 ∧
    (applyEvents es initCompressed).filesFailed.length ≤ 5 ∧
    (applyEvents es initCompressed).recentToolResults.length ≤ 2 := by
  have main : ∀ (es : List ToolEvent) (s : Compressed), compressedBounded s →
      compressedBounded (applyEvents es s) := by
    intro es
    induction es with
    | nil => intro s h; exact h
    | cons e rest ih =>
      intro s h
      exact ih _ (updateCompressedContext_bounded _ _ _ _ h)
  exact main es initCompressed (by refine ⟨?_, ?_, ?_, ?_⟩ <;> simp [initCompressed])

/-- C7 (counterexample): in the dual-model orchestration loop, a directive
with a tool name absent from the registry produces no synthesized Failure
result at all: the execution phase records nothing and leaves the context
manager untouched, against the claim that a Failure with message
Unknown tool is recorded among the Turn's tool results. -/
theorem claim_C7_counterexample :
    knownToolNames.contains (cmdName [(nameKey, "Frobnicate".data)]) = false ∧
    execPhase (fun _ _ => { success := true }) [[(nameKey, "Frobnicate".data)]] CM.start
      = ([], CM.start) := by
  exact ⟨by decide, rfl⟩

/-- C7 (amended): the dual-model loop's execution phase dispatches exactly the
directives whose names are registered; an unregistered name is skipped with
only a console message — no Failure result is synthesized, nothing is
recorded in the context manager or among the tool results — and execution
continues with the remaining directives. -/
theorem claim_C7_unknown_tool_skipped (runner : ToolRunner) (cmds : List Cmd) (cm : CM) :
    execPhase runner cmds cm =
      ((cmds.filter (fun c => knownToolNames.contains (cmdName c))).map (fun c =>
        { tool := cmdName c, args := cmdArgs c, result := runner (cmdName c) (cmdArgs c)
          summary := summarizeToolResult (cmdName c) (cmdArgs c)
            (runner (cmdName c) (cmdArgs c)) }),
       (cmds.filter (fun c => knownToolNames.contains (cmdName c))).foldl (fun m c =>
        addToolExecution m (cmdName c) (cmdArgs c) (runner (cmdName c) (cmdArgs c))
          (summarizeToolResult (cmdName c) (cmdArgs c) (runner (cmdName c) (cmdArgs c)))) cm) := by
  induction cmds generalizing cm with
  | nil => rfl
  | cons c rest ih =>
    by_cases hk : knownToolNames.contains (cmdName c)
    · simp only [execPhase, hk, if_pos, List.filter_cons, List.map_cons, List.foldl_cons, ih]
    · simp only [execPhase, hk, if_neg, List.filter_cons, ih]
      simp [hk]

/-- C8 (counterexample): a six-line message containing no complexity keyword
and no simplicity keyword, classified with an empty prior tool list, comes
out simple — the length heuristic (more than 5 lines would give complex)
is never reached because the only-reading rule is vacuously true on an
empty tool list. -/
theorem claim_C8_counterexample :
    hasComplexKeyword "z\nz\nz\nz\nz\nz" = false ∧
    hasSimpleKeyword "z\nz\nz\nz\nz\nz" = false ∧
    5 < (jsSplit '\n' "z\nz\nz\nz\nz\nz").length ∧
    analyzeTaskComplexity "z\nz\nz\nz\nz\nz" [] = "simple" := by
  refine ⟨by decide, by decide, by decide, by decide⟩

/-- C8 (amended): for a message with no complexity and no simplicity keyword,
the length heuristic (more than 200 characters or more than 5 lines gives
complex, else simple) applies only when the prior tool list defeats both the
code-modification rule and the only-reading rule; with an empty prior tool
list the classifier returns simple regardless of length, because the
only-reading rule holds vacuously. -/
theorem claim_C8_length_fallback (message : String) (toolCalls : List ToolCall)
    (hc : hasComplexKeyword message = false) (hs : hasSimpleKeyword message = false)
    (hm : hasCodeModification toolCalls = false) (hr : onlyReading toolCalls = false) :
    analyzeTaskComplexity message toolCalls =
      (if 200 < message.length ∨ 5 < (jsSplit '\n' message).length then "complex"
       else "simple") ∧
    analyzeTaskComplexity message [] = "simple" := by
  constructor
  · unfold analyzeTaskComplexity
    rw [hc, hm, hs, hr]
    by_cases h2 : 200 < message.length <;>
      by_cases h5 : 5 < (jsSplit '\n' message).length <;>
      simp [h2, h5]
  · unfold analyzeTaskComplexity
    rw [hc, hs]
    simp [hasCodeModification, onlyReading]

/-- C8 (witness): the six-line keyword-free message is complex by the length
heuristic once a non-read-only prior tool defeats the only-reading rule, and
simple with an empty prior tool list. -/
theorem claim_C8_witness :
    analyzeTaskComplexity "z\nz\nz\nz\nz\nz" [some "Bash"] = "complex" ∧
    analyzeTaskComplexity "z\nz\nz\nz\nz\nz" [] = "simple" := by
  have h := claim_C8_length_fallback "z\nz\nz\nz\nz\nz" [some "Bash"]
    (by decide) (by decide) (by decide) (by decide)
  refine ⟨?_, h.2⟩
  rw [h.1]
  decide

theorem loopStep_of_halted (r : ToolRunner) (w : Bool) (i : LoopInput) (s : LoopState)
    (h : s.halted = true) : loopStep r w i s = s := by
  unfold loopStep
  rw [if_pos h]

theorem runLoop_of_halted (r : ToolRunner) (w : Bool) :
    ∀ (n : Nat) (f : Nat → LoopInput) (s : LoopState), s.halted = true →
      runLoop r w f n s = s := by
  intro n
  induction n with
  | zero => intro f s _; rfl
  | succ n ih =>
    intro f s h
    show runLoop r w _ n (loopStep r w (f 0) s) = s
    rw [loopStep_of_halted r w _ s h]
    exact ih _ s h

set_option linter.unnecessarySeqFocus false in
/-- Every outcome of loopDecide carries the taskComplete flag it was given:
the source sets taskComplete before any branching and every exit keeps it. -/
theorem loopDecide_tc (r : ToolRunner) (inp : LoopInput) (text : String)
    (tc1 : Bool) (cmds2 : List Cmd) (s : LoopState) :
    (loopDecide r inp text tc1 cmds2 s).tc = tc1 := by
  unfold loopDecide
  dsimp only
  split_ifs <;> first
    | rfl
    | (rcases hck : inp.ck with _ | ck <;> simp only [hck] <;>
        first
          | rfl
          | (split_ifs <;> rfl))

theorem loopBody_tc (r : ToolRunner) (w : Bool) (i : LoopInput) (c : String)
    (s : LoopState) :
    (loopBody r w i c s).tc = (s.tc || jsIncludes c taskCompleteMarker) := by
  unfold loopBody
  dsimp only
  exact loopDecide_tc _ _ _ _ _ _

theorem loopStep_halts_of_tc (r : ToolRunner) (w : Bool) (i : LoopInput) (s : LoopState)
    (h : s.tc = true) : (loopStep r w i s).halted = true := by
  cases hh : s.halted with
  | true => rw [loopStep_of_halted r w i s hh]; exact hh
  | false =>
    unfold loopStep
    rw [if_neg (by rw [hh]; exact Bool.false_ne_true)]
    rw [if_pos (show (!(decide (s.iter < maxIterations) && !s.tc)) = true by
      rw [h]; simp)]

/-- C2 (amended): a response containing the completion marker terminates the
Turn regardless of the parsed directive set: the marker sets the completion
flag (after the current iteration executes whatever directives the response
carried, or the loop breaks), so whatever the next input is, the loop is
halted one step later — co-occurrence with an empty directive set is not
required. -/
theorem claim_C2_marker_terminates (runner : ToolRunner) (isWin : Bool)
    (i j : LoopInput) (s : LoopState) (c : String)
    (hresp : i.resp = some c) (hmark : jsIncludes c taskCompleteMarker = true) :
    (loopStep runner isWin j (loopStep runner isWin i s)).halted = true := by
  cases hh : s.halted with
  | true =>
    rw [loopStep_of_halted runner isWin i s hh,
      loopStep_of_halted runner isWin j s hh]
    exact hh
  | false =>
    by_cases hg : (!(decide (s.iter < maxIterations) && !s.tc)) = true
    · have h1 : loopStep runner isWin i s = { s with halted := true } := by
        unfold loopStep
        rw [if_neg (by rw [hh]; exact Bool.false_ne_true), if_pos hg]
      have h2 : loopStep runner isWin j { s with halted := true }
          = { s with halted := true } := loopStep_of_halted _ _ _ _ rfl
      rw [h1, h2]
    · have hstep : loopStep runner isWin i s
          = (if c.isEmpty then { s with halted := true }
             else loopBody runner isWin i c s) := by
        unfold loopStep
        rw [if_neg (by rw [hh]; exact Bool.false_ne_true), if_neg hg, hresp]
      by_cases hce : c.isEmpty = true
      · have h2 : loopStep runner isWin j { s with halted := true }
            = { s with halted := true } := loopStep_of_halted _ _ _ _ rfl
        rw [hstep, if_pos hce, h2]
      · rw [hstep, if_neg hce]
        apply loopStep_halts_of_tc
        rw [loopBody_tc, hmark]
        simp

def loopMeasure (s : LoopState) : Nat :=
  if s.halted then 0 else (maxIterations - s.iter) + (if s.ul then 1 else 0) + 1

set_option linter.unusedTactic false in
/-- Shape of every loopDecide outcome: it halts keeping the iteration
counter, or re-enters without incrementing while switching off the light
tier, or increments the counter without ever switching the light tier back
on. -/
theorem loopDecide_shape (r : ToolRunner) (inp : LoopInput) (text : String)
    (tc1 : Bool) (cmds2 : List Cmd) (s : LoopState) :
    ((loopDecide r inp text tc1 cmds2 s).halted = true ∧
      (loopDecide r inp text tc1 cmds2 s).iter = s.iter) ∨
    ((loopDecide r inp text tc1 cmds2 s).iter = s.iter ∧ s.ul = true ∧
      (loopDecide r inp text tc1 cmds2 s).ul = false ∧
      (loopDecide r inp text tc1 cmds2 s).halted = s.halted) ∨
    ((loopDecide r inp text tc1 cmds2 s).iter = s.iter + 1 ∧
      ((loopDecide r inp text tc1 cmds2 s).ul = true → s.ul = true) ∧
      (loopDecide r inp text tc1 cmds2 s).halted = s.halted) := by
  unfold loopDecide
  dsimp only
  split_ifs <;> first
    | (left; exact ⟨rfl, rfl⟩)
    | (right; left; refine ⟨rfl, ?_, rfl, rfl⟩; simp_all [Bool.and_eq_true])
    | (right; right; refine ⟨rfl, ?_, rfl⟩; intro hx; simp_all)
    | (rcases hck : inp.ck with _ | ck <;> simp only [hck] <;>
        first
          | (left; exact ⟨trivial, trivial⟩)
          | (left; exact ⟨rfl, rfl⟩)
          | (split_ifs <;>
              (right; right; refine ⟨rfl, ?_, rfl⟩; intro hx; simp_all)))

theorem loopBody_shape (r : ToolRunner) (w : Bool) (i : LoopInput) (c : String)
    (s : LoopState) :
    ((loopBody r w i c s).halted = true ∧ (loopBody r w i c s).iter = s.iter) ∨
    ((loopBody r w i c s).iter = s.iter ∧ s.ul = true ∧
      (loopBody r w i c s).ul = false ∧ (loopBody r w i c s).halted = s.halted) ∨
    ((loopBody r w i c s).iter = s.iter + 1 ∧
      ((loopBody r w i c s).ul = true → s.ul = true) ∧
      (loopBody r w i c s).halted = s.halted) := by
  unfold loopBody
  dsimp only
  exact loopDecide_shape _ _ _ _ _ _

/-- Exhaustive case analysis of one loop traversal: a halted state absorbs,
or the traversal halts at a guard (ceiling reached, completion flag, null or
empty content), or it runs the body on some non-empty content with the guard
facts available. -/
theorem loopStep_cases (r : ToolRunner) (w : Bool) (i : LoopInput) (s : LoopState) :
    (loopStep r w i s = s ∧ s.halted = true) ∨
    (loopStep r w i s = { s with halted := true }) ∨
    (∃ c, i.resp = some c ∧ c.isEmpty = false ∧ s.halted = false ∧ s.tc = false ∧
      s.iter < maxIterations ∧ loopStep r w i s = loopBody r w i c s) := by
  cases hh : s.halted with
  | true => exact Or.inl ⟨loopStep_of_halted _ _ _ _ hh, rfl⟩
  | false =>
    by_cases hg : (!(decide (s.iter < maxIterations) && !s.tc)) = true
    · refine Or.inr (Or.inl ?_)
      unfold loopStep
      rw [if_neg (by rw [hh]; exact Bool.false_ne_true), if_pos hg]
    · have hand : (decide (s.iter < maxIterations) && !s.tc) = true := by
        revert hg; cases (decide (s.iter < maxIterations) && !s.tc) <;> simp
      rw [Bool.and_eq_true] at hand
      have hiter : s.iter < maxIterations := of_decide_eq_true hand.1
      have htc : s.tc = false := by
        have h2 := hand.2; revert h2; cases s.tc <;> simp
      rcases hresp : i.resp with _ | c
      · refine Or.inr (Or.inl ?_)
        unfold loopStep
        rw [if_neg (by rw [hh]; exact Bool.false_ne_true), if_neg hg, hresp]
      · by_cases hce : c.isEmpty = true
        · refine Or.inr (Or.inl ?_)
          unfold loopStep
          rw [if_neg (by rw [hh]; exact Bool.false_ne_true), if_neg hg, hresp]
          dsimp only
          rw [if_pos hce]
        · refine Or.inr (Or.inr ⟨c, rfl, ?_, rfl, htc, hiter, ?_⟩)
          · revert hce; cases c.isEmpty <;> simp
          · unfold loopStep
            rw [if_neg (by rw [hh]; exact Bool.false_ne_true), if_neg hg, hresp]
            dsimp only
            rw [if_neg hce]

theorem loopStep_measure_lt (r : ToolRunner) (w : Bool) (i : LoopInput) (s : LoopState)
    (h : (loopStep r w i s).halted = false) :
    loopMeasure (loopStep r w i s) < loopMeasure s := by
  rcases loopStep_cases r w i s with ⟨he, hh⟩ | he | ⟨c, _, _, _, htc, hiter, he⟩
  · rw [he, hh] at h; cases h
  · rw [he] at h; simp at h
  · rw [he] at h ⊢
    have hh : s.halted = false := by
      rcases loopBody_shape r w i c s with ⟨hb, _⟩ | ⟨_, _, _, hb⟩ | ⟨_, _, hb⟩
      · rw [hb] at h; cases h
      · rw [← hb]; exact h
      · rw [← hb]; exact h
    rcases loopBody_shape r w i c s with ⟨hb, _⟩ | ⟨hi, hu1, hu2, hb⟩ | ⟨hi, hu, hb⟩
    · rw [hb] at h; cases h
    · unfold loopMeasure
      rw [hb, hh, hi, hu2, hu1]
      simp
    · unfold loopMeasure
      rw [hb, hh, hi]
      simp only [Bool.false_eq_true, if_false]
      cases hbu : (loopBody r w i c s).ul with
      | true =>
        rw [hu hbu]
        simp
        omega
      | false =>
        cases hsu : s.ul <;> simp <;> omega

theorem loopStep_iter_le (r : ToolRunner) (w : Bool) (i : LoopInput) (s : LoopState)
    (h : s.iter ≤ maxIterations) : (loopStep r w i s).iter ≤ maxIterations := by
  rcases loopStep_cases r w i s with ⟨he, _⟩ | he | ⟨c, _, _, _, _, hiter, he⟩
  · rw [he]; exact h
  · rw [he]; exact h
  · rw [he]
    rcases loopBody_shape r w i c s with ⟨_, hi⟩ | ⟨hi, _, _, _⟩ | ⟨hi, _, _⟩ <;>
      rw [hi] <;> omega

theorem runLoop_halts (r : ToolRunner) (w : Bool) :
    ∀ (n : Nat) (f : Nat → LoopInput) (s : LoopState),
      loopMeasure s ≤ n → (runLoop r w f n s).halted = true := by
  intro n
  induction n with
  | zero =>
    intro f s hm
    cases hh : s.halted with
    | true => exact hh
    | false =>
      exfalso
      unfold loopMeasure at hm
      rw [hh] at hm
      simp at hm
  | succ n ih =>
    intro f s hm
    cases hh : (loopStep r w (f 0) s).halted with
    | true =>
      show (runLoop r w _ n (loopStep r w (f 0) s)).halted = true
      rw [runLoop_of_halted r w n _ _ hh]
      exact hh
    | false =>
      have hlt := loopStep_measure_lt r w (f 0) s hh
      exact ih _ _ (by omega)

theorem runLoop_iter_le (r : ToolRunner) (w : Bool) :
    ∀ (n : Nat) (f : Nat → LoopInput) (s : LoopState),
      s.iter ≤ maxIterations → (runLoop r w f n s).iter ≤ maxIterations := by
  intro n
  induction n with
  | zero => intro f s h; exact h
  | succ n ih =>
    intro f s h
    exact ih _ _ (loopStep_iter_le r w (f 0) s h)

/-- C3: for every tool runner, platform and input stream (model responses and
checkpoint responses, including the tier-switch re-entries that do not
increment the counter), a Turn's loop reaches a halted state within 27
machine steps — at most 25 counted iterations, at most one non-incrementing
tier-switch re-entry, and the final guard check — and the iteration counter
never exceeds the ceiling of 25. -/
theorem claim_C3_loop_terminates (runner : ToolRunner) (isWin : Bool)
    (inputs : Nat → LoopInput) (userMessage : String) :
    (runLoop runner isWin inputs 27 (LoopState.start userMessage)).halted = true ∧
    ∀ n : Nat,
      (runLoop runner isWin inputs n (LoopState.start userMessage)).iter
        ≤ maxIterations := by
  constructor
  · exact runLoop_halts runner isWin 27 inputs (LoopState.start userMessage)
      (Nat.le_refl 27)
  · intro n
    exact runLoop_iter_le runner isWin n inputs (LoopState.start userMessage)
      (Nat.zero_le _)

/-- A runner standing for tool executors that fail every call. -/
def failRunner : ToolRunner := fun _ _ => { success := false, error := some "boom" }

def c2Response : String := "TASK COMPLETE\n<tool name=\"Read\" file_path=\"a.js\" />"

def c2Stream : Nat → LoopInput :=
  fun _ => { resp := some c2Response, ck := some "CONTINUE" }

/-- C2 (counterexample): a response that contains the completion marker and
also carries one directive does not keep the loop iterating: the first
machine step runs the body (executing the directive) with the completion
flag set, and the very next step halts the Turn — the marker alone was
sufficient, no marker-with-empty-directive-set response ever arrived. -/
theorem claim_C2_counterexample :
    (parseToolCommands c2Response).length = 1 ∧
    jsIncludes c2Response taskCompleteMarker = true ∧
    (runLoop failRunner false c2Stream 1 (LoopState.start "hi")).halted = false ∧
    (runLoop failRunner false c2Stream 1 (LoopState.start "hi")).tc = true ∧
    (runLoop failRunner false c2Stream 2 (LoopState.start "hi")).halted = true := by
  refine ⟨by decide, by decide, by decide, by decide, by decide⟩

/-- C2 (witness): the amended theorem applied to the marker-and-directive
response: two machine steps after it the Turn is halted. -/
theorem claim_C2_witness :
    (loopStep failRunner false (c2Stream 1)
      (loopStep failRunner false (c2Stream 0) (LoopState.start "hi"))).halted = true :=
  claim_C2_marker_terminates failRunner false (c2Stream 0) (c2Stream 1)
    (LoopState.start "hi") c2Response rfl (by decide)

def c6Response : String := "go\n<tool name=\"Read\" file_path=\"a\" />"

def ambiguousCheckpoint : String := "CONTINUE or STOP"

def c6Stream : Nat → LoopInput :=
  fun _ => { resp := some c6Response, ck := some ambiguousCheckpoint }

/-- C6 (counterexample): on the checkpoint-interval iteration (the sixth body,
counter value 5) while on the light tier, a checkpoint response that mentions
STOP alongside CONTINUE — an ambiguous response — switches the loop to the
heavy tier: the decision test is a plain substring search for STOP, not a
check for an unambiguous STOP token. -/
theorem claim_C6_counterexample :
    jsIncludes (jsToUpper (jsTrim ambiguousCheckpoint)) "CONTINUE" = true ∧
    jsIncludes (jsToUpper (jsTrim ambiguousCheckpoint)) "STOP" = true ∧
    (runLoop failRunner false c6Stream 5 (LoopState.start "review")).ul = true ∧
    (runLoop failRunner false c6Stream 5 (LoopState.start "review")).iter = 5 ∧
    (runLoop failRunner false c6Stream 6 (LoopState.start "review")).ul = false ∧
    (runLoop failRunner false c6Stream 6 (LoopState.start "review")).halted = false := by
  refine ⟨by decide, by decide, by decide, by decide, by decide, by decide⟩

/-- Reduction of loopDecide on a checkpoint iteration whose response does not
contain the STOP token: the light tier, halted flag and message flow are kept
and only the counter advances. -/
theorem loopDecide_checkpoint_continue (r : ToolRunner) (inp : LoopInput)
    (text : String) (tc1 : Bool) (cmds2 : List Cmd) (s : LoopState) (ck : String)
    (hcm : cmds2.isEmpty = false) (hul : s.ul = true) (hpos : 0 < s.iter)
    (hmod : s.iter % checkpointInterval = 0) (hck : inp.ck = some ck)
    (hstop : jsIncludes (jsToUpper (jsTrim ck)) "STOP" = false) :
    (loopDecide r inp text tc1 cmds2 s).ul = s.ul ∧
    (loopDecide r inp text tc1 cmds2 s).halted = s.halted ∧
    (loopDecide r inp text tc1 cmds2 s).iter = s.iter + 1 := by
  unfold loopDecide
  dsimp only
  rw [if_neg (show ¬((jsIncludes text summaryHeader && cmds2.isEmpty && s.ul) = true)
    from by simp [hcm])]
  rw [if_neg (show ¬(cmds2.isEmpty = true) from by simp [hcm])]
  rw [if_pos (show (s.ul && decide (0 < s.iter)
      && decide (s.iter % checkpointInterval = 0)) = true
    from by simp [hul, hpos, hmod])]
  rw [hck]
  dsimp only
  rw [if_neg (show ¬(jsIncludes (jsToUpper (jsTrim ck)) "STOP" = true)
    from by simp [hstop])]
  exact ⟨rfl, rfl, rfl⟩

/-- C6 (amended): the checkpoint is fail-open only for responses that contain
no occurrence of the STOP token at all: on a checkpoint-interval iteration on
the light tier, any checkpoint response whose trimmed upper-cased content
does not contain STOP as a substring keeps the loop on the light tier and
running; a response containing STOP anywhere — even ambiguously next to
CONTINUE — switches to the heavy tier. -/
theorem claim_C6_fail_open (runner : ToolRunner) (isWin : Bool) (inp : LoopInput)
    (s : LoopState) (content ck : String)
    (hh : s.halted = false) (hul : s.ul = true) (htc : s.tc = false)
    (hiter : s.iter < maxIterations) (hpos : 0 < s.iter)
    (hmod : s.iter % checkpointInterval = 0)
    (hresp : inp.resp = some content) (hne : content.isEmpty = false)
    (hcmds : (parseToolCommands content).isEmpty = false)
    (hck : inp.ck = some ck)
    (hstop : jsIncludes (jsToUpper (jsTrim ck)) "STOP" = false) :
    (loopStep runner isWin inp s).ul = true ∧
    (loopStep runner isWin inp s).halted = false ∧
    (loopStep runner isWin inp s).iter = s.iter + 1 := by
  have h1 : loopStep runner isWin inp s
      = loopDecide runner inp (removeToolCommands content)
          (s.tc || jsIncludes content taskCompleteMarker)
          (if s.iter = 1
              && (if s.iter = 0 && (parseToolCommands content).isEmpty
                  then [injectedDirListing isWin] else parseToolCommands content).any
                isGlobCmd
              && !(decide (0 < s.cm.compressedContext.filesFound.length) : Bool)
           then [injectedDirListing isWin]
           else if s.iter = 0 && (parseToolCommands content).isEmpty
             then [injectedDirListing isWin] else parseToolCommands content) s := by
    unfold loopStep
    rw [if_neg (by rw [hh]; exact Bool.false_ne_true)]
    rw [if_neg (by rw [htc]; simp [hiter])]
    rw [hresp]
    dsimp only
    rw [if_neg (by rw [hne]; exact Bool.false_ne_true)]
    rfl
  have hcm : (if s.iter = 1
      && (if s.iter = 0 && (parseToolCommands content).isEmpty
          then [injectedDirListing isWin] else parseToolCommands content).any isGlobCmd
      && !(decide (0 < s.cm.compressedContext.filesFound.length) : Bool)
      then [injectedDirListing isWin]
      else if s.iter = 0 && (parseToolCommands content).isEmpty
        then [injectedDirListing isWin]
        else parseToolCommands content).isEmpty = false := by
    split_ifs <;> first | rfl | exact hcmds
  obtain ⟨hA, hB, hC⟩ := loopDecide_checkpoint_continue runner inp
    (removeToolCommands content) (s.tc || jsIncludes content taskCompleteMarker)
    _ s ck hcm hul hpos hmod hck hstop
  rw [h1]
  exact ⟨by rw [hA]; exact hul, by rw [hB]; exact hh, hC⟩

/-- C6 (witness): at the sixth body of a light-tier Turn, a checkpoint
response with no STOP token keeps the loop on the light tier and running. -/
theorem claim_C6_witness :
    (loopStep failRunner false
        { resp := some c6Response, ck := some "KEEP GOING" }
        (runLoop failRunner false c6Stream 5 (LoopState.start "review"))).ul = true ∧
    (loopStep failRunner false
        { resp := some c6Response, ck := some "KEEP GOING" }
        (runLoop failRunner false c6Stream 5 (LoopState.start "review"))).halted = false := by
  have h := claim_C6_fail_open failRunner false
    { resp := some c6Response, ck := some "KEEP GOING" }
    (runLoop failRunner false c6Stream 5 (LoopState.start "review"))
    c6Response "KEEP GOING"
    (by decide) (by decide) (by decide) (by decide) (by decide) (by decide)
    rfl (by decide) (by decide) rfl (by decide)
  exact ⟨h.1, h.2.1⟩

/-- C4 (counterexample): strip is not idempotent and can leave a complete
directive-marker substring behind: removing an inner tag can splice the
surrounding text into a new tag, so the stripped text still contains the
marker and stripping again changes it. -/
theorem claim_C4_counterexample :
    containsSub (removeToolCommands "<to<tool x/>ol y/>").data toolMarker = true ∧
    removeToolCommands (removeToolCommands "<to<tool x/>ol y/>")
      ≠ removeToolCommands "<to<tool x/>ol y/>" := by
  refine ⟨by decide, by decide⟩

/-- C4 (amended): strip removes every directive matched in one left-to-right
pass and trims the ends; it is idempotent exactly on the inputs where the
removal has not spliced a new marker occurrence into the output — whenever
strip of T contains no marker substring, stripping again changes nothing. -/
theorem claim_C4_strip_idempotent_unless_marker (T : String)
    (h : containsSub (removeToolCommands T).data toolMarker = false) :
    removeToolCommands (removeToolCommands T) = removeToolCommands T := by
  unfold removeToolCommands at h ⊢
  simp only [data_mk] at h ⊢
  rw [stripAuxF_no_marker _ _ h, trimChars_idem]

/-- C4 (witness): on an ordinary response whose stripped form has no marker
left, strip is idempotent. -/
theorem claim_C4_witness :
    containsSub (removeToolCommands "hello <tool name=\"Read\" /> world").data
        toolMarker = false ∧
    removeToolCommands (removeToolCommands "hello <tool name=\"Read\" /> world")
      = removeToolCommands "hello <tool name=\"Read\" /> world" :=
  ⟨by decide, claim_C4_strip_idempotent_unless_marker _ (by decide)⟩

theorem isPrefixOf_append_self : ∀ (x r : LC), List.isPrefixOf x (x ++ r) = true := by
  intro x
  induction x with
  | nil => intro r; cases r <;> rfl
  | cons c cs ih =>
    intro r
    show (c == c && List.isPrefixOf cs (cs ++ r)) = true
    rw [Bool.and_eq_true]
    exact ⟨beq_self_eq_true c, ih r⟩

theorem isPrefixOf_append_mono (p : LC) :
    ∀ (s t : LC), List.isPrefixOf p s = true → List.isPrefixOf p (s ++ t) = true := by
  induction p with
  | nil => intro s t _; cases s <;> cases t <;> rfl
  | cons a as ih =>
    intro s t h
    cases s with
    | nil => cases h
    | cons b bs =>
      have h2 : (a == b && List.isPrefixOf as bs) = true := h
      rw [Bool.and_eq_true] at h2
      show (a == b && List.isPrefixOf as (bs ++ t)) = true
      rw [Bool.and_eq_true]
      exact ⟨h2.1, ih bs t h2.2⟩

theorem containsSub_nil_pat (s : LC) : containsSub s [] = true := by
  cases s with
  | nil => rfl
  | cons c cs => simp [containsSub, List.isPrefixOf]

theorem containsSub_append_left (a b p : LC) (h : containsSub b p = true) :
    containsSub (a ++ b) p = true := by
  induction a with
  | nil => exact h
  | cons c cs ih => simp [containsSub, ih]

theorem containsSub_append_right (X Q pat : LC) (h : containsSub X pat = true) :
    containsSub (X ++ Q) pat = true := by
  induction X with
  | nil =>
    have hp : pat.isEmpty = true := h
    rw [List.isEmpty_iff] at hp
    rw [hp]
    exact containsSub_nil_pat ([] ++ Q)
  | cons c cs ih =>
    simp only [containsSub, Bool.or_eq_true] at h ⊢
    rcases h with h | h
    · exact Or.inl (isPrefixOf_append_mono pat (c :: cs) Q h)
    · exact Or.inr (ih h)

theorem containsSub_mid (a p b : LC) : containsSub (a ++ (p ++ b)) p = true :=
  containsSub_append_left a _ p
    (isPrefixOf_containsSub p (p ++ b) (isPrefixOf_append_self p b))

theorem strData_append (a b : String) : (a ++ b).data = a.data ++ b.data := by
  cases a; cases b; rfl

theorem foldl_append_data (l : List String) :
    ∀ acc : String, (l.foldl (fun r s => r ++ s) acc).data
      = acc.data ++ (l.map String.data).flatten := by
  induction l with
  | nil => intro acc; simp
  | cons x xs ih =>
    intro acc
    simp only [List.foldl_cons, List.map_cons, List.flatten_cons]
    rw [ih (acc ++ x), strData_append]
    simp [List.append_assoc]

theorem join_data (l : List String) :
    (String.join l).data = (l.map String.data).flatten := by
  show (l.foldl (fun r s => r ++ s) "").data = (l.map String.data).flatten
  rw [foldl_append_data]
  rfl

theorem flatten_segment (g : String → String) (p : String) :
    ∀ (S : List String), p ∈ S →
      ∃ A B : LC, ((S.map g).map String.data).flatten = A ++ ((g p).data ++ B) := by
  intro S
  induction S with
  | nil => intro hp; cases hp
  | cons x xs ih =>
    intro hp
    rcases List.mem_cons.mp hp with hx | hmem
    · refine ⟨[], ((xs.map g).map String.data).flatten, ?_⟩
      rw [hx]
      simp
    · obtain ⟨A, B, hAB⟩ := ih hmem
      refine ⟨(g x).data ++ A, B, ?_⟩
      simp only [List.map_cons, List.flatten_cons, hAB]
      simp [List.append_assoc]

theorem getLast?_append_singleton {α : Type} (q : List α) (p : α) :
    (q ++ [p]).getLast? = some p := by
  induction q with
  | nil => rfl
  | cons x xs ih =>
    rw [List.cons_append, List.getLast?_cons, ih]
    rfl

theorem mem_sliceLast_append (q : List String) (p : String) (n : Nat) (hn : 0 < n) :
    p ∈ jsSliceLast n (q ++ [p]) := by
  unfold jsSliceLast
  rw [List.drop_append_eq_append_drop]
  refine List.mem_append.mpr (Or.inr ?_)
  have hz : (q ++ [p]).length - n - q.length = 0 := by simp; omega
  rw [hz]
  exact List.mem_singleton.mpr rfl

/-- A failed Read pushes the path onto the failed list (evicting at cap 5)
and leaves the discovered-file and read lists untouched. -/
theorem update_read_failure (s : Compressed) (p : String) (r : ToolResult)
    (hr : r.success = false) :
    (updateCompressedContext s "Read" [("file_path", p)] r).filesFound = s.filesFound ∧
    (updateCompressedContext s "Read" [("file_path", p)] r).filesRead = s.filesRead ∧
    ∃ q : List String,
      (updateCompressedContext s "Read" [("file_path", p)] r).filesFailed = q ++ [p] := by
  unfold updateCompressedContext
  dsimp only
  rw [hr]
  rw [if_neg (show ¬((decide ("Read" = "Bash") && false) = true) from by simp)]
  rw [if_neg (show ¬((decide ("Read" = "Glob") && false) = true) from by simp)]
  rw [if_pos (show ("Read" = "Read") from rfl)]
  rw [if_neg (show ¬(false = true) from by simp)]
  have hv : (argsLookup [("file_path", p)] "file_path").getD "undefined" = p := by
    simp [argsLookup]
  rw [hv]
  refine ⟨rfl, rfl, ?_⟩
  by_cases hlen : 5 < (s.filesFailed ++ [p]).length
  · rw [if_pos hlen]
    cases hsf : s.filesFailed with
    | nil => rw [hsf] at hlen; simp at hlen
    | cons x xs => exact ⟨xs, by simp⟩
  · rw [if_neg hlen]
    exact ⟨s.filesFailed, rfl⟩

def emptyFS : FileSys := fun _ => Except.error "ENOENT: no such file or directory"

def c9BashResult : ToolResult := { success := true, stdout := some "a.js\n" }

def c9AfterList : Compressed :=
  updateCompressedContext initCompressed "Bash" [("command", "ls")] c9BashResult

def c9AfterFail : Compressed :=
  updateCompressedContext c9AfterList "Read" [("file_path", "a.js")]
    (executeRead emptyFS [("file_path", "a.js")])

def c9FailRead (s : Compressed) (p : String) : Compressed :=
  updateCompressedContext s "Read" [("file_path", p)]
    (executeRead emptyFS [("file_path", p)])

def c9AfterMore : Compressed :=
  c9FailRead (c9FailRead (c9FailRead c9AfterFail "b.js") "c.js") "d.js"

/-- C9 (counterexample): after a directory listing discovers a path and a
Read of that (now non-existent) path fails, the path is in the failed list
but is NOT excluded from the discovered-file list — the light view shows it
both under the directory section and the failed section; and after three
further failed reads the original path is no longer among the last three
entries the failed section displays, so not every subsequent light view
includes it. -/
theorem claim_C9_counterexample :
    (executeRead emptyFS [("file_path", "a.js")]).success = false ∧
    c9AfterFail.filesFailed = ["a.js"] ∧
    "a.js" ∈ c9AfterFail.filesFound ∧
    containsSub (getCompressedContext c9AfterFail).data "a.js".data = true ∧
    "a.js" ∈ c9AfterMore.filesFailed ∧
    ("a.js" ∈ jsSliceLast 3 c9AfterMore.filesFailed) = False := by
  refine ⟨by decide, by decide, by decide, by decide, by decide, by decide⟩

/-- C9 (amended): a Read of a non-existent path yields Failure; the path is
appended to the failed-read list, so the next light view shows its basename
in the failed section (it stays there only while among the last three, and
on the list only while among the last five); the discovered-file list is not
modified by the failed read — the path is excluded from it only in the sense
that a failed read never adds it. -/
def c9Update (fs : FileSys) (s : Compressed) (p : String) : Compressed :=
  updateCompressedContext s "Read" [("file_path", p)] (executeRead fs [("file_path", p)])

theorem claim_C9_failed_read_listed (fs : FileSys) (p msg : String) (s : Compressed)
    (h : fs p = Except.error msg) :
    (executeRead fs [("file_path", p)]).success = false ∧
    (c9Update fs s p).filesFound = s.filesFound ∧
    (c9Update fs s p).filesRead = s.filesRead ∧
    (c9Update fs s p).filesFailed.getLast? = some p ∧
    p ∈ jsSliceLast 3 (c9Update fs s p).filesFailed ∧
    containsSub (getCompressedContext (c9Update fs s p)).data (winBasename p).data
      = true := by
  have hr : (executeRead fs [("file_path", p)]).success = false := by
    unfold executeRead
    dsimp only
    rw [(show (argsLookup [("file_path", p)] "file_path").getD "" = p
      from by simp [argsLookup]), h]
  obtain ⟨hFound, hRead, q, hFail⟩ :=
    update_read_failure s p (executeRead fs [("file_path", p)]) hr
  have hLast : (c9Update fs s p).filesFailed.getLast? = some p := by
    show (updateCompressedContext s "Read" [("file_path", p)] _).filesFailed.getLast?
      = some p
    rw [hFail]
    exact getLast?_append_singleton q p
  have hMem : p ∈ jsSliceLast 3 (c9Update fs s p).filesFailed := by
    show p ∈ jsSliceLast 3
      (updateCompressedContext s "Read" [("file_path", p)] _).filesFailed
    rw [hFail]
    exact mem_sliceLast_append q p 3 (by omega)
  refine ⟨hr, hFound, hRead, hLast, hMem, ?_⟩
  have hne : 0 < (c9Update fs s p).filesFailed.length := by
    show 0 < (updateCompressedContext s "Read" [("file_path", p)] _).filesFailed.length
    rw [hFail]
    simp
  obtain ⟨A, B, hseg⟩ := flatten_segment (fun f => winBasename f ++ "\n") p
    (jsSliceLast 3 (c9Update fs s p).filesFailed) hMem
  unfold getCompressedContext
  dsimp only
  rw [if_pos hne]
  simp only [strData_append, List.append_assoc]
  apply containsSub_append_left
  apply containsSub_append_left
  apply containsSub_append_right
  rw [join_data, hseg]
  apply containsSub_append_left
  apply containsSub_append_right
  rw [strData_append]
  exact containsSub_mid [] (winBasename p).data "\n".data

/-- C9 (witness): the amended theorem at the concrete empty file system,
path and initial compressed state. -/
theorem claim_C9_witness :
    (executeRead emptyFS [("file_path", "a.js")]).success = false ∧
    (c9Update emptyFS initCompressed "a.js").filesFound = initCompressed.filesFound ∧
    (c9Update emptyFS initCompressed "a.js").filesRead = initCompressed.filesRead ∧
    (c9Update emptyFS initCompressed "a.js").filesFailed.getLast? = some "a.js" ∧
    "a.js" ∈ jsSliceLast 3 (c9Update emptyFS initCompressed "a.js").filesFailed ∧
    containsSub (getCompressedContext (c9Update emptyFS initCompressed "a.js")).data
      (winBasename "a.js").data = true :=
  claim_C9_failed_read_listed emptyFS "a.js" "ENOENT: no such file or directory"
    initCompressed rfl

/-- An abstract directive for the wire format of section 6 of the spec: a
tool name and an ordered attribute mapping. -/
structure Invocation where
  name : LC
  args : List (LC × LC)

/-- Render one attribute as key equals double-quoted value. -/
def renderAttr (kv : LC × LC) : LC := kv.1 ++ '=' :: '"' :: (kv.2 ++ ['"'])

/-- The attribute region of a rendered directive: the name attribute first,
then the remaining attributes, space separated. -/
def attrsBlob (inv : Invocation) : LC :=
  renderAttr (nameKey, inv.name) ++ (inv.args.map (fun kv => ' ' :: renderAttr kv)).flatten

/-- Render one directive in the wire format of section 6. -/
def renderInv (inv : Invocation) : LC :=
  "<tool ".data ++ attrsBlob inv ++ " />".data

/-- Render a directive set, newline separated. -/
def render : List Invocation → LC
  | [] => []
  | [inv] => renderInv inv
  | inv :: rest => renderInv inv ++ '\n' :: render rest

/-- A key the attribute regex can produce: nonempty, word characters only. -/
def goodKey (k : LC) : Prop := k ≠ [] ∧ ∀ c ∈ k, isWordChar c = true

/-- A value that round-trips: nonempty, containing neither quote character
and no greater-than character. -/
def goodVal (v : LC) : Prop := v ≠ [] ∧ ∀ c ∈ v, isQuoteChar c = false ∧ c ≠ '>'

def goodInv (inv : Invocation) : Prop :=
  goodVal inv.name ∧ (∀ kv ∈ inv.args, goodKey kv.1 ∧ goodVal kv.2) ∧
  (inv.args.map Prod.fst).Nodup ∧ nameKey ∉ inv.args.map Prod.fst

/-- The attribute object the parser builds for a rendered directive. -/
def objOf (inv : Invocation) : Cmd := (nameKey, inv.name) :: inv.args

theorem span_append (p : Char → Bool) :
    ∀ (k : LC) (c : Char) (t : LC), (∀ x ∈ k, p x = true) → p c = false →
      (k ++ c :: t).takeWhile p = k ∧ (k ++ c :: t).dropWhile p = c :: t := by
  intro k
  induction k with
  | nil =>
    intro c t _ hc
    constructor
    · rw [List.nil_append, List.takeWhile_cons, if_neg (by rw [hc]; exact Bool.false_ne_true)]
    · rw [List.nil_append, List.dropWhile_cons, if_neg (by rw [hc]; exact Bool.false_ne_true)]
  | cons a as ih =>
    intro c t hk hc
    have ha : p a = true := hk a (by simp)
    obtain ⟨h1, h2⟩ := ih c t (fun x hx => hk x (by simp [hx])) hc
    constructor
    · rw [List.cons_append, List.takeWhile_cons, if_pos (by rw [ha]), h1]
    · rw [List.cons_append, List.dropWhile_cons, if_pos (by rw [ha]), h2]

theorem attrMatchAt_render (k v rest : LC) (hk : goodKey k) (hv : goodVal v) :
    attrMatchAt (renderAttr (k, v) ++ rest) = some ((k, v), rest) := by
  have hassoc : renderAttr (k, v) ++ rest = k ++ '=' :: '"' :: (v ++ '"' :: rest) := by
    unfold renderAttr
    simp [List.append_assoc]
  rw [hassoc]
  obtain ⟨ht, hd⟩ := span_append isWordChar k '=' ('"' :: (v ++ '"' :: rest)) hk.2 (by decide)
  unfold attrMatchAt
  rw [ht, hd]
  rw [if_neg (show ¬(k.isEmpty = true) from by
    rw [List.isEmpty_iff]; exact hk.1)]
  have he : attrTail k ('=' :: '"' :: (v ++ '"' :: rest))
      = (if (List.takeWhile (fun c => !isQuoteChar c) (v ++ '"' :: rest)).isEmpty = true
         then none
         else
           match List.dropWhile (fun c => !isQuoteChar c) (v ++ '"' :: rest) with
           | [] => none
           | _ :: r5 =>
             some ((k, List.takeWhile (fun c => !isQuoteChar c) (v ++ '"' :: rest)), r5)) :=
    rfl
  rw [he]
  obtain ⟨hvt, hvd⟩ := span_append (fun c => !isQuoteChar c) v '"' rest
    (fun x hx => by simp [(hv.2 x hx).1]) (by decide)
  rw [hvt, hvd]
  rw [if_neg (show ¬(v.isEmpty = true) from by
    rw [List.isEmpty_iff]; exact hv.1)]

theorem attrMatchAt_nonword (c : Char) (cs : LC) (hc : isWordChar c = false) :
    attrMatchAt (c :: cs) = none := by
  have ht : (c :: cs).takeWhile isWordChar = [] := by
    rw [List.takeWhile_cons, if_neg (by rw [hc]; exact Bool.false_ne_true)]
  unfold attrMatchAt
  rw [ht]
  rfl

theorem scanAttrsF_nil (f : Nat) : scanAttrsF f [] = [] := by
  cases f <;> rfl

theorem scanAttrsF_step (f : Nat) (k v : LC) (Y : LC) (hk : goodKey k) (hv : goodVal v) :
    scanAttrsF (f + 1) (renderAttr (k, v) ++ Y) = (k, v) :: scanAttrsF f Y := by
  cases k with
  | nil => exact absurd rfl hk.1
  | cons a as =>
    have hm := attrMatchAt_render (a :: as) v Y hk hv
    have hcons : renderAttr (a :: as, v) ++ Y
        = a :: (as ++ '=' :: '"' :: (v ++ ['"']) ++ Y) := by
      unfold renderAttr
      simp [List.append_assoc]
    rw [hcons] at hm ⊢
    simp only [scanAttrsF, hm]

theorem scanAttrsF_args (args : List (LC × LC))
    (hargs : ∀ kv ∈ args, goodKey kv.1 ∧ goodVal kv.2) :
    ∀ f, ((args.map (fun kv => ' ' :: renderAttr kv)).flatten ++ [' ']).length ≤ f →
      scanAttrsF f ((args.map (fun kv => ' ' :: renderAttr kv)).flatten ++ [' ']) = args := by
  induction args with
  | nil =>
    intro f hf
    cases f with
    | zero => simp at hf
    | succ f1 =>
      show scanAttrsF (f1 + 1) [' '] = []
      simp only [scanAttrsF, attrMatchAt_nonword ' ' [] (by decide)]
      exact scanAttrsF_nil f1
  | cons kv rest ih =>
    intro f hf
    have hform : (((kv :: rest).map (fun kv => ' ' :: renderAttr kv)).flatten ++ [' '])
        = ' ' :: (renderAttr kv ++ ((rest.map (fun kv => ' ' :: renderAttr kv)).flatten ++ [' '])) := by
      simp [List.append_assoc]
    rw [hform] at hf ⊢
    have hkv := hargs kv (by simp)
    have hrlen : 0 < (renderAttr kv).length := by
      cases hkk : kv.1 with
      | nil => exact absurd hkk hkv.1.1
      | cons a as =>
        unfold renderAttr
        rw [hkk]
        simp
    cases f with
    | zero => simp at hf
    | succ f1 =>
      simp only [scanAttrsF, attrMatchAt_nonword ' ' _ (by decide)]
      cases f1 with
      | zero =>
        exfalso
        simp [List.length_append] at hf
      | succ f2 =>
        have hkv2 : kv = (kv.1, kv.2) := rfl
        rw [hkv2, scanAttrsF_step f2 kv.1 kv.2 _ hkv.1 hkv.2]
        rw [ih (fun x hx => hargs x (by simp [hx])) f2 (by
          simp [List.length_append] at hf ⊢
          omega)]

theorem objInsert_fresh :
    ∀ (o : List (LC × LC)) (k v : LC), k ∉ o.map Prod.fst →
      objInsert o k v = o ++ [(k, v)] := by
  intro o
  induction o with
  | nil => intro k v _; rfl
  | cons kv0 rest ih =>
    intro k v h
    simp only [List.map_cons, List.mem_cons] at h
    push_neg at h
    show objInsert (kv0 :: rest) k v = _
    rw [show objInsert ((kv0.1, kv0.2) :: rest) k v
        = if kv0.1 = k then (kv0.1, v) :: rest else (kv0.1, kv0.2) :: objInsert rest k v
      from rfl]
    rw [if_neg (fun hc => h.1 hc.symm)]
    rw [ih k v h.2]
    rfl

theorem foldl_objInsert :
    ∀ (l : List (LC × LC)) (acc : List (LC × LC)), (l.map Prod.fst).Nodup →
      (∀ k ∈ l.map Prod.fst, k ∉ acc.map Prod.fst) →
      l.foldl (fun o kv => objInsert o kv.1 kv.2) acc = acc ++ l := by
  intro l
  induction l with
  | nil => intro acc _ _; simp
  | cons kv rest ih =>
    intro acc hnd hfresh
    simp only [List.foldl_cons]
    rw [objInsert_fresh acc kv.1 kv.2 (hfresh kv.1 (by simp))]
    rw [List.map_cons, List.nodup_cons] at hnd
    rw [ih (acc ++ [(kv.1, kv.2)]) hnd.2 ?fresh]
    · simp
    case fresh =>
      intro k hk
      simp only [List.map_append, List.mem_append]
      push_neg
      refine ⟨hfresh k (by simp [hk]), ?_⟩
      simp only [List.map_cons, List.map_nil, List.mem_singleton]
      intro hc
      rw [hc] at hk
      exact hnd.1 hk

theorem scanAttrs_blob (inv : Invocation) (hinv : goodInv inv) :
    scanAttrs (attrsBlob inv ++ [' ']) = (nameKey, inv.name) :: inv.args := by
  unfold scanAttrs
  have hYform : attrsBlob inv ++ [' ']
      = renderAttr (nameKey, inv.name)
        ++ ((inv.args.map (fun kv => ' ' :: renderAttr kv)).flatten ++ [' ']) := by
    unfold attrsBlob
    simp [List.append_assoc]
  rw [hYform]
  have hgn : goodKey nameKey := by
    constructor
    · decide
    · decide
  have hrpos : 0 < (renderAttr (nameKey, inv.name)).length := by
    unfold renderAttr nameKey
    simp
  set Y := (inv.args.map (fun kv => ' ' :: renderAttr kv)).flatten ++ [' '] with hY
  have hlen : (renderAttr (nameKey, inv.name) ++ Y).length
      = (renderAttr (nameKey, inv.name)).length + Y.length := by simp
  have hsucc : ∃ f2, (renderAttr (nameKey, inv.name) ++ Y).length = f2 + 1 ∧ Y.length ≤ f2 := by
    refine ⟨(renderAttr (nameKey, inv.name) ++ Y).length - 1, by omega, by omega⟩
  obtain ⟨f2, hf2, hYf2⟩ := hsucc
  rw [hf2, scanAttrsF_step f2 nameKey inv.name Y hgn hinv.1]
  rw [scanAttrsF_args inv.args hinv.2.1 f2 hYf2]

theorem parseAttributes_blob (inv : Invocation) (hinv : goodInv inv) :
    parseAttributes (attrsBlob inv ++ [' ']) = objOf inv := by
  unfold parseAttributes
  rw [scanAttrs_blob inv hinv]
  rw [foldl_objInsert ((nameKey, inv.name) :: inv.args) [] ?nd (by simp)]
  · rfl
  case nd =>
    rw [List.map_cons, List.nodup_cons]
    exact ⟨hinv.2.2.2, hinv.2.2.1⟩

theorem firstGtIdx_no_gt :
    ∀ (a : LC), (∀ c ∈ a, c ≠ '>') → ∀ (t : LC),
      firstGtIdx (a ++ '>' :: t) = some a.length := by
  intro a
  induction a with
  | nil => intro _ t; simp [firstGtIdx]
  | cons c cs ih =>
    intro ha t
    have hc : c ≠ '>' := ha c (by simp)
    show firstGtIdx (c :: (cs ++ '>' :: t)) = some (c :: cs).length
    rw [show firstGtIdx (c :: (cs ++ '>' :: t))
        = if c = '>' then some 0 else (firstGtIdx (cs ++ '>' :: t)).map Nat.succ
      from rfl]
    rw [if_neg hc, ih (fun x hx => ha x (by simp [hx])) t]
    rfl

theorem renderAttr_no_gt (k v : LC) (hk : goodKey k) (hv : goodVal v) :
    ∀ c ∈ renderAttr (k, v), c ≠ '>' := by
  intro c hc
  unfold renderAttr at hc
  simp only [List.mem_append, List.mem_cons, List.mem_singleton] at hc
  rcases hc with hck | hc2
  · intro heq
    rw [heq] at hck
    have := hk.2 '>' hck
    simp [isWordChar] at this
  · rcases hc2 with he | hq | hcv
    · rw [he]; decide
    · rw [hq]; decide
    · rcases hcv with hcv2 | hq2 | hnil
      · exact (hv.2 c hcv2).2
      · rw [hq2]; decide
      · cases hnil

theorem attrsBlob_no_gt (inv : Invocation) (hinv : goodInv inv) :
    ∀ c ∈ attrsBlob inv, c ≠ '>' := by
  intro c hc
  unfold attrsBlob at hc
  rcases List.mem_append.mp hc with hn | hf
  · exact renderAttr_no_gt nameKey inv.name ⟨by decide, by decide⟩ hinv.1 c hn
  · obtain ⟨l, hl, hcl⟩ := List.mem_flatten.mp hf
    obtain ⟨kv, hkv, hlkv⟩ := List.mem_map.mp hl
    rw [← hlkv] at hcl
    rcases List.mem_cons.mp hcl with hsp | hra
    · rw [hsp]; decide
    · have hg := hinv.2.1 kv hkv
      exact renderAttr_no_gt kv.1 kv.2 hg.1 hg.2 c
        (by rw [show ((kv.1, kv.2) : LC × LC) = kv from rfl]; exact hra)

set_option linter.deprecated false in
theorem toolMatch_render (inv : Invocation) (tail : LC) (hinv : goodInv inv) :
    toolMatch (renderInv inv ++ tail)
      = some (' ' :: (attrsBlob inv ++ [' ']), (renderInv inv).length) := by
  have hs : renderInv inv ++ tail
      = '<' :: 't' :: 'o' :: 'o' :: 'l' :: ' '
        :: (attrsBlob inv ++ (' ' :: '/' :: '>' :: tail)) := by
    unfold renderInv
    rw [List.append_assoc, List.append_assoc]
    rfl
  have hfg : firstGtIdx (attrsBlob inv ++ (' ' :: '/' :: '>' :: tail))
      = some ((attrsBlob inv).length + 2) := by
    have hng : ∀ c ∈ attrsBlob inv ++ [' ', '/'], c ≠ '>' := by
      intro c hc
      rcases List.mem_append.mp hc with hb | hsp
      · exact attrsBlob_no_gt inv hinv c hb
      · have hco : c = ' ' ∨ c = '/' := by simpa using hsp
        rcases hco with h1 | h2
        · rw [h1]; decide
        · rw [h2]; decide
    have h2 := firstGtIdx_no_gt (attrsBlob inv ++ [' ', '/']) hng tail
    rw [show (attrsBlob inv ++ [' ', '/']) ++ '>' :: tail
        = attrsBlob inv ++ (' ' :: '/' :: '>' :: tail) from by simp] at h2
    rw [h2]
    simp
  rw [hs]
  show (match firstGtIdx (attrsBlob inv ++ (' ' :: '/' :: '>' :: tail)) with
    | some p =>
      if 2 ≤ p ∧ (attrsBlob inv ++ (' ' :: '/' :: '>' :: tail)).get? (p - 1) = some '/' then
        some (' ' :: (attrsBlob inv ++ (' ' :: '/' :: '>' :: tail)).take (p - 1), p + 7)
      else none
    | none => none)
    = some (' ' :: (attrsBlob inv ++ [' ']), (renderInv inv).length)
  rw [hfg]
  dsimp only
  have hget : (attrsBlob inv ++ (' ' :: '/' :: '>' :: tail)).get?
      ((attrsBlob inv).length + 2 - 1) = some '/' := by
    rw [List.get?_append_right (by omega)]
    rw [show (attrsBlob inv).length + 2 - 1 - (attrsBlob inv).length = 1 from by omega]
    rfl
  rw [if_pos ⟨by omega, hget⟩]
  have htake : (attrsBlob inv ++ (' ' :: '/' :: '>' :: tail)).take
      ((attrsBlob inv).length + 2 - 1) = attrsBlob inv ++ [' '] := by
    rw [List.take_append_eq_append_take]
    rw [List.take_of_length_le (by omega)]
    rw [show (attrsBlob inv).length + 2 - 1 - (attrsBlob inv).length = 1 from by omega]
    rfl
  rw [htake]
  have hlen : (renderInv inv).length = (attrsBlob inv).length + 9 := by
    unfold renderInv
    rw [List.length_append, List.length_append]
    rw [show ("<tool ".data).length = 6 from rfl, show (" />".data).length = 3 from rfl]
    omega
  rw [hlen]

theorem attrStrOf_space (c0 : Char) (rest : LC) (hc : jsWs c0 = false) :
    attrStrOf (' ' :: c0 :: rest) = c0 :: rest := by
  unfold attrStrOf
  rw [List.dropWhile_cons, if_pos (show jsWs ' ' = true from by decide),
      List.dropWhile_cons, hc]
  simp

theorem attrStrOf_render (inv : Invocation) :
    attrStrOf (' ' :: (attrsBlob inv ++ [' '])) = attrsBlob inv ++ [' '] := by
  obtain ⟨Z, hZ⟩ : ∃ Z, attrsBlob inv ++ [' '] = 'n' :: Z := ⟨_, rfl⟩
  rw [hZ, attrStrOf_space 'n' Z (by decide)]

theorem parseToolsF_nil (f : Nat) : parseToolsF f [] = [] := by
  cases f <;> rfl

theorem parseToolsF_render_step (inv : Invocation) (tail : LC) (f : Nat)
    (hinv : goodInv inv) :
    parseToolsF (f + 1) (renderInv inv ++ tail) = objOf inv :: parseToolsF f tail := by
  obtain ⟨Z, hZ⟩ : ∃ Z, renderInv inv ++ tail = '<' :: Z := ⟨_, rfl⟩
  have hm := toolMatch_render inv tail hinv
  rw [hZ] at hm ⊢
  simp only [parseToolsF, hm]
  rw [attrStrOf_render inv, parseAttributes_blob inv hinv]
  rw [if_pos (show (lookupAttr (objOf inv) nameKey).isSome = true from by
    show (if nameKey = nameKey then some inv.name else lookupAttr inv.args nameKey).isSome
      = true
    rw [if_pos rfl]
    rfl)]
  rw [← hZ, List.drop_left]

theorem parseToolsF_newline (f : Nat) (s : LC) :
    parseToolsF (f + 1) ('\n' :: s) = parseToolsF f s := by
  have hnm : toolMatch ('\n' :: s) = none := rfl
  simp only [parseToolsF, hnm]

instance (k : LC) : Decidable (goodKey k) :=
  inferInstanceAs (Decidable (k ≠ [] ∧ ∀ c ∈ k, isWordChar c = true))

instance (v : LC) : Decidable (goodVal v) :=
  inferInstanceAs (Decidable (v ≠ [] ∧ ∀ c ∈ v, isQuoteChar c = false ∧ c ≠ '>'))

instance (inv : Invocation) : Decidable (goodInv inv) :=
  inferInstanceAs (Decidable (goodVal inv.name ∧
    (∀ kv ∈ inv.args, goodKey kv.1 ∧ goodVal kv.2) ∧
    (inv.args.map Prod.fst).Nodup ∧ nameKey ∉ inv.args.map Prod.fst))

theorem renderInv_length (inv : Invocation) :
    (renderInv inv).length = (attrsBlob inv).length + 9 := by
  unfold renderInv
  rw [List.length_append, List.length_append]
  rw [show ("<tool ".data).length = 6 from rfl, show (" />".data).length = 3 from rfl]
  omega

theorem render_cons_head (inv : Invocation) (rest : List Invocation) :
    ∃ Z, render (inv :: rest) = '<' :: Z := by
  cases rest with
  | nil => exact ⟨_, rfl⟩
  | cons b t => exact ⟨_, rfl⟩

theorem parse_render_chain : ∀ (D : List Invocation), (∀ inv ∈ D, goodInv inv) →
    ∀ f, (render D).length ≤ f → parseToolsF f (render D) = D.map objOf := by
  intro D
  induction D with
  | nil =>
    intro _ f _
    exact parseToolsF_nil f
  | cons inv rest ih =>
    intro hD f hf
    have hinv : goodInv inv := hD inv (List.mem_cons_self inv rest)
    have hrest : ∀ x ∈ rest, goodInv x := fun x hx => hD x (List.mem_cons_of_mem inv hx)
    obtain ⟨Z, hZ⟩ := render_cons_head inv rest
    have hpos : 1 ≤ (render (inv :: rest)).length := by rw [hZ]; simp
    cases f with
    | zero => omega
    | succ f1 =>
      cases rest with
      | nil =>
        show parseToolsF (f1 + 1) (renderInv inv) = [objOf inv]
        rw [show renderInv inv = renderInv inv ++ ([] : LC) from (List.append_nil _).symm]
        rw [parseToolsF_render_step inv [] f1 hinv]
        rw [parseToolsF_nil f1]
      | cons b t =>
        have hr : render (inv :: b :: t) = renderInv inv ++ '\n' :: render (b :: t) := rfl
        rw [hr] at hf ⊢
        rw [parseToolsF_render_step inv ('\n' :: render (b :: t)) f1 hinv]
        have h9 := renderInv_length inv
        have hlf : (renderInv inv).length + ((render (b :: t)).length + 1) ≤ f1 + 1 := by
          rw [List.length_append] at hf
          simpa using hf
        cases f1 with
        | zero => omega
        | succ f2 =>
          rw [parseToolsF_newline f2 (render (b :: t))]
          rw [ih hrest f2 (by omega)]
          rfl

def okInv : Invocation :=
  { name := "Read".data
    args := [("file_path".data, "a.js".data)] }

def cexInv : Invocation :=
  { name := "Echo".data
    args := [("msg".data, "don".data ++ apostropheChar :: "t".data)] }

def okInv2 : Invocation :=
  { name := "Grep".data
    args := [("pattern".data, "foo".data), ("path".data, "src".data)] }

/-- C10: a Grep invocation whose underlying grep command errors still
produces a Success result, identical to the result of a successful search
with empty stdout (empty matches, lineCount 0), and such a result never
touches the compressed failed-read list. -/
theorem claim_C10_failed_grep_is_success (sh : Shell) (cwd : String) (args : Args)
    (msg : String) (h : sh (grepCmd cwd args) = Except.error msg) :
    executeGrep sh cwd args = { success := true, «matches» := some "", lineCount := some 0 } ∧
    executeGrep sh cwd args = executeGrep (fun _ => Except.ok "") cwd args ∧
    ∀ (s : Compressed) (a2 : Args),
      (updateCompressedContext s "Grep" a2 (executeGrep sh cwd args)).filesFailed
        = s.filesFailed := by
  have he : executeGrep sh cwd args
      = { success := true, «matches» := some "", lineCount := some 0 } := by
    unfold executeGrep
    rw [h]
    rfl
  refine ⟨he, by rw [he]; rfl, ?_⟩
  intro s a2
  rw [he]
  unfold updateCompressedContext
  simp

/-- C10 (witness): a concrete erroring shell yields the empty-match success
result. -/
theorem claim_C10_witness :
    executeGrep (fun _ => Except.error "spawn grep ENOENT") "/w" [("pattern", "x")]
      = { success := true, «matches» := some "", lineCount := some 0 } :=
  (claim_C10_failed_grep_is_success (fun _ => Except.error "spawn grep ENOENT")
    "/w" [("pattern", "x")] "spawn grep ENOENT" rfl).1

/-- C5 (counterexample): the claim's own well-formedness condition only bans
the delimiting quote character, here the double quote. The directive set
whose single invocation carries the value don-apostrophe-t meets it, yet the
attribute regex rejects both quote characters inside a value and accepts the
apostrophe as a closing delimiter, so parsing the rendering truncates the
value to don: the round trip fails for this well-formed set. -/
theorem claim_C5_counterexample :
    (∀ c ∈ cexInv.args, ∀ x ∈ c.2, x ≠ '"') ∧
    parseToolCommands (String.mk (render [cexInv])) ≠ [cexInv].map objOf ∧
    parseToolCommands (String.mk (render [cexInv]))
      = [[(nameKey, "Echo".data), ("msg".data, "don".data)]] := by
  refine ⟨by decide, by decide, by decide⟩

/-- C5: for directive sets whose names and values are nonempty, contain
neither quote character and no greater-than character, whose keys are
nonempty runs of word characters without duplicates, and whose keys avoid
the reserved name key, parsing the rendered wire format reproduces the set:
same number of invocations, same left-to-right order, and for each one the
exact attribute object the parser builds (name attribute first, then the
original attributes in order). -/
theorem claim_C5_roundtrip (D : List Invocation) (hD : ∀ inv ∈ D, goodInv inv) :
    parseToolCommands (String.mk (render D)) = D.map objOf :=
  parse_render_chain D hD (render D).length (le_refl _)

/-- C5 (witness): a concrete two-invocation directive set round-trips. -/
theorem claim_C5_witness :
    (∀ inv ∈ [okInv, okInv2], goodInv inv) ∧
    parseToolCommands (String.mk (render [okInv, okInv2]))
      = [okInv, okInv2].map objOf :=
  ⟨by decide, claim_C5_roundtrip [okInv, okInv2] (by decide)⟩

end Grc
